import Mathlib

/-!
# Verification of the `validator` package

A shallow embedding of `validator.go`, `options.go` and `fieldvalidator.go`,
followed by theorems about it.

Conventions of the embedding.

* A Go `string` is a Lean `String` (the Go strings that are valid UTF-8); Go's
  `len(s)` counts bytes, which is `String.utf8ByteSize`.
* A Go `int` is a Lean `Int`; the code only compares integers, and the one place
  where the 64-bit width can be seen, `strconv.Atoi`, checks the range.
* A nil slice is `none`, a non-nil slice `some l`.
* `map[string]int` is a list of entries.  A `range` loop over a map visits the
  entries in an order chosen by the Go runtime, which may differ from one loop to
  the next: every loop takes its order from a schedule carried in the state.
* `reflect.StructField` keeps the parts the package reads; `Tag` is the result of
  `sf.Tag.Get("validate")`, which is `""` both for an absent and for an empty tag.
* `reflect` hands `ValidateField` a value of the type of the field; the functions
  are total on the other pairs too, and a theorem that does not need the
  agreement of value and type is stated for all pairs.
-/

namespace validator

/-! ## Library functions used by the package -/

/-- Pieces of a character list between the occurrences of `sep`. -/
def splitChars (sep : Char) : List Char → List (List Char)
  | [] => [[]]
  | c :: cs =>
    if c = sep then [] :: splitChars sep cs
    else
      match splitChars sep cs with
      | [] => [[c]]
      | p :: ps => (c :: p) :: ps

/-- Function `strings.Split(s, sep)` for a separator of one character (the package uses
`";"`, `":"` and `","`): the result always has at least one piece. -/
def Split (s : String) (sep : Char) : List String :=
  (splitChars sep s.data).map String.mk

/-- Characters left after removing the leading and the trailing spaces. -/
def trimChars (cs : List Char) : List Char :=
  ((cs.dropWhile (fun c => c = ' ')).reverse.dropWhile (fun c => c = ' ')).reverse

/-- Function `strings.Trim(s, " ")`: only the space character is in the cutset. -/
def Trim (s : String) : String :=
  String.mk (trimChars s.data)

/-- Function `strings.Join(elems, sep)`. -/
def Join (elems : List String) (sep : String) : String :=
  sep.intercalate elems

/-- Builtin `len(s)`: the number of bytes of the string. -/
def len (s : String) : Int :=
  (s.utf8ByteSize : Int)

/-- Number of bits of a Go `int` (`strconv.IntSize` on 64-bit platforms). -/
def intSize : Nat := 64

/-- Value of a character as a decimal digit, if it is one. -/
def digitVal (c : Char) : Option Nat :=
  if '0' ≤ c ∧ c ≤ '9' then some (c.toNat - '0'.toNat) else none

/-- Value of a non-empty sequence of decimal digits, most significant first. -/
def parseDigits (cs : List Char) : Option Nat :=
  if cs = [] then none
  else cs.foldlM (fun acc c => (digitVal c).map (fun d => 10 * acc + d)) 0

/-- Function `strconv.Atoi(s)`: an optional sign `+` or `-`, then one or more decimal
digits; `none` stands for the error, which is returned for a text of another form
and for a value outside the range of `int`. -/
def Atoi (s : String) : Option Int :=
  let neg : Bool := s.data.head? = some '-'
  let digits := if s.data.head? = some '-' ∨ s.data.head? = some '+' then s.data.tail else s.data
  (parseDigits digits).bind (fun n =>
    if neg then (if n ≤ 2 ^ (intSize - 1) then some (-(n : Int)) else none)
    else (if n < 2 ^ (intSize - 1) then some (n : Int) else none))

/-- Text of an integer under the `%v` verb. -/
def formatInt (n : Int) : String :=
  toString n

/-! ## reflect -/

/-- The kinds of `reflect.Kind`. -/
inductive Kind
  | Invalid | Bool | Int | Int8 | Int16 | Int32 | Int64
  | Uint | Uint8 | Uint16 | Uint32 | Uint64 | Uintptr
  | Float32 | Float64 | Complex64 | Complex128
  | Array | Chan | Func | Interface | Map | Pointer | Slice | String | Struct
  | UnsafePointer
  deriving DecidableEq, Repr

/-- Method `Kind.String()`, the name printed by the `%s` verb. -/
def kindName : Kind → String
  | .Invalid => "invalid" | .Bool => "bool" | .Int => "int" | .Int8 => "int8"
  | .Int16 => "int16" | .Int32 => "int32" | .Int64 => "int64" | .Uint => "uint"
  | .Uint8 => "uint8" | .Uint16 => "uint16" | .Uint32 => "uint32"
  | .Uint64 => "uint64" | .Uintptr => "uintptr" | .Float32 => "float32"
  | .Float64 => "float64" | .Complex64 => "complex64"
  | .Complex128 => "complex128" | .Array => "array" | .Chan => "chan"
  | .Func => "func" | .Interface => "interface" | .Map => "map" | .Pointer => "ptr"
  | .Slice => "slice" | .String => "string" | .Struct => "struct"
  | .UnsafePointer => "unsafe.Pointer"

/-- The part of `reflect.Type` the package reads: the kind and, for a slice type,
the element type.  `prim k` is a type of kind `k` that is not a slice type. -/
inductive Typ
  | prim (k : Kind)
  | sliceOf (elem : Typ)
  deriving DecidableEq, Repr

/-- Method `Type.Kind()`. -/
def Typ.Kind : Typ → Kind
  | .prim k => k
  | .sliceOf _ => .Slice

/-- Method `Type.Elem()`; the package calls it on slice types only. -/
def Typ.Elem : Typ → Typ
  | .prim _ => .prim .Invalid
  | .sliceOf e => e

/-- The part of `reflect.StructField` the package reads; `Typ` is the field
`Type`. -/
structure StructField where
  Name : String
  PkgPath : String
  Typ : Typ
  Tag : String
  deriving DecidableEq, Repr

/-- Method `StructField.IsExported()`. -/
def StructField.IsExported (sf : StructField) : Bool :=
  sf.PkgPath == ""

/-- A `reflect.Value`, as far as the package looks into it. -/
inductive Value
  | int (n : Int)
  | str (s : String)
  | slice (elems : List Value)
  | struct (fields : List (StructField × Value))
  | other (k : Kind)

/-- Method `Value.Kind()`. -/
def Value.Kind : Value → Kind
  | .int _ => .Int
  | .str _ => .String
  | .slice _ => .Slice
  | .struct _ => .Struct
  | .other k => k

/-- Method `Value.Int()`, called on values of kind `Int` only. -/
def Value.Int : Value → Int
  | .int n => n
  | _ => 0

/-- Method `Value.String()`, called on values of kind `String` only. -/
def Value.String : Value → String
  | .str s => s
  | _ => ""

/-- The elements `sl.Index(0)`, ..., `sl.Index(sl.Len() - 1)` of a slice value. -/
def Value.elems : Value → List Value
  | .slice es => es
  | _ => []

/-- The pairs `t.Field(i)`, `val.Field(i)` of a struct value, in declaration
order. -/
def Value.fields : Value → List (StructField × Value)
  | .struct fs => fs
  | _ => []

/-! ## The order of a `range` loop over a map -/

/-- Result of putting `x` at position `n` of a list (at the end when the list is
shorter). -/
def insertAt {α : Type} (x : α) : Nat → List α → List α
  | 0, l => x :: l
  | _ + 1, [] => [x]
  | n + 1, y :: ys => y :: insertAt x n ys

/-- Order in which one `range` loop visits the entries of a map, for the choices
`cs` made by the runtime: each entry is put at the chosen place among the entries
after it.  Every choice gives an arrangement of the entries and every arrangement
comes from some choice. -/
def rangeOrder {α : Type} : List Nat → List α → List α
  | _, [] => []
  | cs, x :: xs =>
    let rest := rangeOrder cs.tail xs
    insertAt x (cs.headD 0 % (rest.length + 1)) rest

/-! ## validator.go, first part: errors -/

/-- The error values the package creates: its three sentinel errors and the errors
made by `errors.Errorf`, which carry their formatted message. -/
inductive error
  | ErrNotStruct
  | ErrInvalidValidatorSyntax
  | ErrValidateForUnexportedFields
  | Errorf (msg : String)
  deriving DecidableEq, Repr

/-- Method `Error()` of these errors. -/
def error.Error : error → String
  | .ErrNotStruct => "wrong argument given, should be a struct"
  | .ErrInvalidValidatorSyntax => "invalid validator syntax"
  | .ErrValidateForUnexportedFields => "validation for unexported field is not allowed"
  | .Errorf msg => msg

/-- The struct `ValidationError`. -/
structure ValidationError where
  Err : error
  deriving DecidableEq, Repr

/-- The slice type `ValidationErrors`. -/
abbrev ValidationErrors := List ValidationError

/-- Method `Error()` of `ValidationErrors`. -/
def ValidationErrors.Error (v : ValidationErrors) : String :=
  Join (v.map (fun e => e.Err.Error)) ";\n"

/-! ## options.go -/

/-- The names of the four clauses. -/
def Min : String := "min"
def Max : String := "max"
def Len : String := "len"
def In : String := "in"

/-- The struct `Options`.  The map `Numeric` is the list of its entries; the field
`Field` is never written nor read and is left out. -/
structure Options where
  Numeric : List (String × Int) := []
  InStr : Option (List String) := none
  InInt : Option (List Int) := none
  deriving DecidableEq, Repr

/-- The assignment `m[k] = v` on a map. -/
def mapSet (m : List (String × Int)) (k : String) (v : Int) : List (String × Int) :=
  m.filter (fun e => e.1 ≠ k) ++ [(k, v)]

/-- The generic function `contains`. -/
def contains {T : Type} [DecidableEq T] : List T → T → Bool
  | [], _ => false
  | v :: set, val => if v = val then true else contains set val

/-- Method `getNumericOption`; the receiver after the call and the error
(`none` for nil). -/
def getNumericOption (o : Options) (opt : String) (val : String) : Options × Option error :=
  match Atoi val with
  | none => (o, some .ErrInvalidValidatorSyntax)
  | some n => ({ o with Numeric := mapSet o.Numeric opt n }, none)

/-- The loop of `parseInOption` over the items not yet read: `done` holds the
integers stored so far; the result is the content of `InInt` when the loop is
left (the places not reached keep the zero of `make`) and the error. -/
def parseInLoop : List String → List Int → List Int × Option error
  | [], done => (done, none)
  | v :: vs, done =>
    match Atoi v with
    | none => (done ++ List.replicate (vs.length + 1) 0, some .ErrInvalidValidatorSyntax)
    | some n => parseInLoop vs (done ++ [n])

/-- Method `parseInOption`. -/
def parseInOption (o : Options) (kind : Kind) (s : String) : Options × Option error :=
  let o := { o with InStr := some (Split s ',') }
  if kind = Kind.Int then
    let r := parseInLoop (Split s ',') []
    ({ o with InInt := some r.1 }, r.2)
  else (o, none)

/-- Method `setOption`. -/
def setOption (o : Options) (kind : Kind) (opt : String) (val : String) :
    Options × Option error :=
  let numeric := [Min, Max, Len]
  if len val = 0 then (o, some .ErrInvalidValidatorSyntax)
  else if contains numeric opt then getNumericOption o opt val
  else if opt = In then parseInOption o kind val
  else (o, none)

/-- The loop of `parseOptions` over the clauses not yet read. -/
def parseOptionsLoop (kind : Kind) : Options → List String → Options × Option error
  | opts, [] => (opts, none)
  | opts, s :: ss =>
    match Split s ':' with
    | [o, w] =>
      match setOption opts kind (Trim o) (Trim w) with
      | (_, some err) => ({}, some err)
      | (opts, none) => parseOptionsLoop kind opts ss
    | _ => ({}, some .ErrInvalidValidatorSyntax)

/-- The function `parseOptions`; the options start from the empty map. -/
def parseOptions (kind : Kind) (st : String) : Options × Option error :=
  parseOptionsLoop kind {} (Split st ';')

/-! ## fieldvalidator.go -/

/-- The format `ErrFieldNotValid` applied to its five arguments, already turned
into text. -/
def ErrFieldNotValid (name kind constraint limit value : String) : String :=
  "field \x27" ++ name ++ "\x27 of type " ++ kind ++ " is not valid: has constraint (\x27"
    ++ constraint ++ "\x27: " ++ limit ++ "), but got value = " ++ value

/-- The struct `Validator`, with the schedule of the runtime: `sched` lists, for
the `range` loops over a map still to come, the choices that give their order. -/
structure Validator where
  Errors : ValidationErrors := []
  sched : List (List Nat) := []
  deriving DecidableEq, Repr

/-- Method `getNumericValue`. -/
def getNumericValue (val : Value) : Int :=
  match val.Kind with
  | .Int => val.Int
  | .String => len val.String
  | _ => 0

/-- Body of the loop of `validateNumeric` for the entry `(k, l)`; the two
`fallthrough` cases run the body of the third. -/
def validateNumericStep (sf : StructField) (n : Int) (errs : ValidationErrors)
    (e : String × Int) : ValidationErrors :=
  if (e.1 = Min ∧ n < e.2) ∨ (e.1 = Max ∧ n > e.2) ∨ (e.1 = Len ∧ n ≠ e.2) then
    errs ++ [⟨.Errorf (ErrFieldNotValid sf.Name (kindName sf.Typ.Kind) e.1 (formatInt e.2)
      (formatInt n))⟩]
  else errs

/-- Method `validateNumeric`. -/
def validateNumeric (v : Validator) (val : Value) (sf : StructField) (opts : Options) :
    Validator :=
  let n := getNumericValue val
  { Errors := (rangeOrder (v.sched.headD []) opts.Numeric).foldl (validateNumericStep sf n)
      v.Errors,
    sched := v.sched.tail }

/-- Method `validateIn`. -/
def validateIn (v : Validator) (val : Value) (sf : StructField) (opts : Options) :
    Validator :=
  match val.Kind with
  | .Int =>
    if opts.InInt ≠ none ∧ ¬ contains (opts.InInt.getD []) val.Int then
      { v with Errors := v.Errors ++ [⟨.Errorf (ErrFieldNotValid sf.Name
        (kindName sf.Typ.Kind) In (Join (opts.InStr.getD []) ",") (formatInt val.Int))⟩] }
    else v
  | .String =>
    if opts.InStr ≠ none ∧ ¬ contains (opts.InStr.getD []) val.String then
      { v with Errors := v.Errors ++ [⟨.Errorf (ErrFieldNotValid sf.Name
        (kindName sf.Typ.Kind) In (Join (opts.InStr.getD []) ",") val.String)⟩] }
    else v
  | _ => v

/-- Method `validateValue`. -/
def validateValue (v : Validator) (val : Value) (sf : StructField) (opts : Options) :
    Validator :=
  validateNumeric (validateIn v val sf opts) val sf opts

/-- Method `getFieldOptions`: the validator after the call and the options
returned. -/
def getFieldOptions (v : Validator) (kind : Kind) (tag : String) : Validator × Options :=
  let r : Options × Option error :=
    if kind = Kind.String ∨ kind = Kind.Int then parseOptions kind tag
    else ({}, some (.Errorf ("field of type " ++ kindName kind ++ " can not be validated")))
  match r.2 with
  | some err => ({ v with Errors := v.Errors ++ [⟨err⟩] }, r.1)
  | none => (v, r.1)

/-- Method `validateSlice`. -/
def validateSlice (v : Validator) (sf : StructField) (sl : Value) : Validator :=
  let r := getFieldOptions v sf.Typ.Elem.Kind sf.Tag
  sl.elems.foldl (fun v e => validateValue v e sf r.2) r.1

/-- Method `ValidateField`. -/
def ValidateField (v : Validator) (sf : StructField) (val : Value) : Validator :=
  if sf.Tag = "" then v
  else if ¬ sf.IsExported then
    { v with Errors := v.Errors ++ [⟨.ErrValidateForUnexportedFields⟩] }
  else if sf.Typ.Kind = Kind.Slice then validateSlice v sf val
  else
    let r := getFieldOptions v sf.Typ.Kind sf.Tag
    validateValue r.1 val sf r.2

/-! ## validator.go, second part: `Validate` -/

/-- What `Validate` returns: nil, one of the errors of the package, or the
collected `ValidationErrors`. -/
inductive Result
  | nil
  | err (e : error)
  | errs (v : ValidationErrors)
  deriving DecidableEq, Repr

/-- The function `Validate`, run with the schedule `sched` for the map loops.
The argument is `none` for the nil interface value and `some val` for a value;
the result is `none` when the call panics (`reflect.TypeOf(nil)` is a nil `Type`,
on which `Kind()` cannot be called). -/
def Validate (sched : List (List Nat)) (v : Option Value) : Option Result :=
  match v with
  | none => none
  | some val =>
    if val.Kind ≠ Kind.Struct then some (.err .ErrNotStruct)
    else
      let vld := val.fields.foldl (fun vld f => ValidateField vld f.1 f.2)
        { Errors := [], sched := sched }
      if vld.Errors.length ≠ 0 then some (.errs vld.Errors) else some .nil

/-! ## Notions of the specification -/

/-- Magnitude of a scalar value, in the words of the specification: the integer
itself for an integer, the length for a string. -/
def magnitude : Value → Int
  | .int n => n
  | .str s => len s
  | _ => 0

/-- The entry `(name, threshold)` of `numeric` is breached by the magnitude `m`, in
the words of the specification. -/
def breached (m : Int) (e : String × Int) : Bool :=
  if e.1 = "min" then decide (m < e.2)
  else if e.1 = "max" then decide (m > e.2)
  else if e.1 = "len" then decide (m ≠ e.2)
  else false

/-- The violation reported for the field `sf` when the magnitude `m` breaches the
entry `e`. -/
def numericViolation (sf : StructField) (m : Int) (e : String × Int) : ValidationError :=
  ⟨.Errorf (ErrFieldNotValid sf.Name (kindName sf.Typ.Kind) e.1 (formatInt e.2) (formatInt m))⟩

/-- The list `errs2` is `errs1` followed by exactly one violation for each entry of
`numeric` that the magnitude `m` breaches, the entries being taken in some order,
and by nothing else. -/
def AppendsBreached (sf : StructField) (numeric : List (String × Int)) (m : Int)
    (errs1 errs2 : ValidationErrors) : Prop :=
  ∃ order : List (String × Int), order.Perm numeric ∧
    errs2 = errs1 ++ (order.filter (breached m)).map (numericViolation sf m)

/-- A non-empty sequence of decimal digits. -/
def IsDigits (ds : List Char) : Prop :=
  ds ≠ [] ∧ ∀ c ∈ ds, '0' ≤ c ∧ c ≤ '9'

/-- The text of an integer written in decimal: an optional `-`, then the digits. -/
def decimalText (neg : Bool) (ds : List Char) : String :=
  String.mk ((if neg then ['-'] else []) ++ ds)

/-- The natural number that a sequence of decimal digits denotes. -/
def digitsValue (ds : List Char) : Nat :=
  Nat.ofDigits 10 (ds.reverse.map (fun c => c.toNat - 48))

/-- The integer that the text `decimalText neg ds` denotes. -/
def decimalValue (neg : Bool) (ds : List Char) : Int :=
  if neg then -(digitsValue ds : Int) else (digitsValue ds : Int)

/-- The clause `s` of a tag is an `in` clause: it splits on `:` into two pieces,
the first of which, trimmed, is `in`. -/
def isInClause (s : String) : Bool :=
  match Split s ':' with
  | [o, _] => decide (Trim o = "in")
  | _ => false

/-- The tag has an `in` clause. -/
def hasInClause (tag : String) : Bool :=
  (Split tag ';').any isInClause

/-- The membership violation reported for the field `sf`: the allowed set is shown
as the items of `InStr` joined by commas, the offending value as `shown`. -/
def inViolation (sf : StructField) (opts : Options) (shown : String) : ValidationError :=
  ⟨.Errorf (ErrFieldNotValid sf.Name (kindName sf.Typ.Kind) "in"
    (Join (opts.InStr.getD []) ",") shown)⟩

/-- The kind that decides how a field is validated: the kind of the field or, for
a slice, the kind of its elements. -/
def validatedKind (sf : StructField) : Kind :=
  if sf.Typ.Kind = .Slice then sf.Typ.Elem.Kind else sf.Typ.Kind

/-- The values of a field that are validated: the elements of a slice, the value
itself otherwise. -/
def validatedValues (sf : StructField) (val : Value) : List Value :=
  if sf.Typ.Kind = .Slice then val.elems else [val]

/-- The violations that `validateValue` produces for the value `val` under the
options `opts`, when the loop over the map takes the order given by `cs`. -/
def valueViolations (cs : List Nat) (val : Value) (sf : StructField) (opts : Options) :
    List ValidationError :=
  (validateValue { Errors := [], sched := [cs] } val sf opts).Errors

/-- For each of the values, in order, the violations that `validateValue` produces
for it under the shared options `opts`; the loop over the map for the value number
`i` takes the order number `i` of the schedule `sc`. -/
def elementViolations (sf : StructField) (opts : Options) :
    List (List Nat) → List Value → List (List ValidationError)
  | _, [] => []
  | sc, e :: es =>
    valueViolations (sc.headD []) e sf opts :: elementViolations sf opts sc.tail es

/-- The violations that `ValidateField` produces for the field `f` alone, with the
schedule `sc`. -/
def fieldViolations (sc : List (List Nat)) (f : StructField × Value) : List ValidationError :=
  (ValidateField { Errors := [], sched := sc } f.1 f.2).Errors

/-- For each field of a record, in declaration order, the violations that
`ValidateField` produces for it alone; each field goes on with the schedule that
the field before it has left. -/
def recordViolations :
    List (List Nat) → List (StructField × Value) → List (List ValidationError)
  | _, [] => []
  | sc, f :: fs =>
    fieldViolations sc f
      :: recordViolations (ValidateField { Errors := [], sched := sc } f.1 f.2).sched fs

/-- The text is an integer for the parser: `strconv.Atoi` accepts it. -/
def isInteger (s : String) : Bool :=
  (Atoi s).isSome

/-- A clause with the trimmed name `opt` and the trimmed value `val` is rejected, in
the words of the specification: the value is empty, or the clause is named `min`,
`max` or `len` and the value is not an integer, or it is named `in`, the kind is
`int` and some item separated by `,` is not an integer. -/
def rejected (kind : Kind) (opt val : String) : Bool :=
  decide (val = "")
    || (decide (opt = "min" ∨ opt = "max" ∨ opt = "len") && !isInteger val)
    || (decide (opt = "in") && decide (kind = .Int)
        && (Split val ',').any (fun item => !isInteger item))

/-- A clause of a tag is malformed: it does not split on `:` into exactly two
pieces, or its trimmed name and value are rejected. -/
def clauseMalformed (kind : Kind) (s : String) : Bool :=
  match Split s ':' with
  | [o, w] => rejected kind (Trim o) (Trim w)
  | _ => true

/-- The options after a clause that is not malformed has been read. -/
def applyClause (kind : Kind) (o : Options) (s : String) : Options :=
  match Split s ':' with
  | [n, w] => (setOption o kind (Trim n) (Trim w)).1
  | _ => o

/-- The trimmed value of the clause `s`, if `s` splits on `:` into two pieces and
its trimmed name is `name`. -/
def clauseValue (name : String) (s : String) : Option String :=
  match Split s ':' with
  | [o, w] => if Trim o = name then some (Trim w) else none
  | _ => none

/-- The trimmed value of the last clause of the tag that is named `name`. -/
def lastClauseValue (name tag : String) : Option String :=
  ((Split tag ';').filterMap (clauseValue name)).getLast?

/-- The text `x` with `a` spaces put before it and `b` spaces after it. -/
def pad (a : Nat) (x : String) (b : Nat) : String :=
  String.mk (List.replicate a ' ' ++ x.data ++ List.replicate b ' ')

/-- The text `s` is a signed decimal that denotes `n`: an optional sign `+` or
`-`, then one or more decimal digits. -/
def IsSignedDecimal (s : String) (n : Int) : Prop :=
  ∃ (sign ds : List Char), (sign = [] ∨ sign = ['+'] ∨ sign = ['-']) ∧ IsDigits ds
    ∧ s.data = sign ++ ds
    ∧ n = if sign = ['-'] then -(digitsValue ds : Int) else (digitsValue ds : Int)

/-- A well-formed clause with an unknown name: it splits on `:` into two pieces, its
trimmed value is not empty and its trimmed name is none of `min`, `max`, `len`,
`in`. -/
def isUnknownClause (s : String) : Bool :=
  match Split s ':' with
  | [o, w] =>
    decide (Trim w ≠ "" ∧ Trim o ≠ "min" ∧ Trim o ≠ "max" ∧ Trim o ≠ "len" ∧ Trim o ≠ "in")
  | _ => false

/-- The text is an integer of the range of `int` written in base 10: an optional
sign `+` or `-`, then one or more decimal digits, with a value from -2^63 to
2^63 - 1. -/
def IsIntText (s : String) : Prop :=
  ∃ n : Int, IsSignedDecimal s n ∧ -(2 : Int) ^ 63 ≤ n ∧ n < (2 : Int) ^ 63

/-- A clause of a tag is ill-formed, in the words of the specification: it does
not split on `:` into exactly two pieces, or its trimmed value is empty, or it is
named `min`, `max` or `len` and its value is not an integer text, or it is named
`in`, the kind is `int` and some item separated by `,` is not an integer text. -/
def ClauseIllFormed (kind : Kind) (s : String) : Prop :=
  (∀ o w : String, Split s ':' ≠ [o, w])
    ∨ ∃ o w : String, Split s ':' = [o, w]
        ∧ (Trim w = ""
          ∨ ((Trim o = "min" ∨ Trim o = "max" ∨ Trim o = "len") ∧ ¬ IsIntText (Trim w))
          ∨ (Trim o = "in" ∧ kind = .Int
              ∧ ∃ item ∈ Split (Trim w) ',', ¬ IsIntText item))

/-- The values of a field on which constraints are checked: none for a field
without tag and for an unexported field, the validated values otherwise. -/
def checkedValues (f : StructField × Value) : List Value :=
  if f.1.Tag = "" ∨ f.1.IsExported = false then [] else validatedValues f.1 f.2

/-- The options with which the values of the field are validated: those that
`getFieldOptions` returns for the validated kind and the tag of the field. -/
def fieldOptions (sf : StructField) : Options :=
  (getFieldOptions {} (validatedKind sf) sf.Tag).2

/-- The violation that `getFieldOptions` reports for the field itself, if any: a
malformed tag or a kind that can not be validated. -/
def fieldOptionsErrors (sf : StructField) : List ValidationError :=
  (getFieldOptions {} (validatedKind sf) sf.Tag).1.Errors

/-- At most one numeric constraint of the tag fires on each checked value of the
field. -/
def AtMostOneFires (f : StructField × Value) : Prop :=
  ∀ val ∈ checkedValues f,
    (fieldOptions f.1).Numeric.countP (breached (getNumericValue val)) ≤ 1

/-! ## Theorems -/

theorem insertAt_perm {α : Type} (x : α) (n : Nat) (l : List α) :
    (insertAt x n l).Perm (x :: l) := by
  induction l generalizing n with
  | nil => cases n <;> simp [insertAt]
  | cons y ys ih =>
    cases n with
    | zero => simp [insertAt]
    | succ k =>
      simp only [insertAt]
      exact ((ih k).cons y).trans (List.Perm.swap x y ys)

theorem rangeOrder_perm {α : Type} (cs : List Nat) (l : List α) :
    (rangeOrder cs l).Perm l := by
  induction l generalizing cs with
  | nil => simp [rangeOrder]
  | cons x xs ih =>
    simp only [rangeOrder]
    exact (insertAt_perm x _ _).trans ((ih cs.tail).cons x)

theorem insertAt_length_append {α : Type} (x : α) (a b : List α) :
    insertAt x a.length (a ++ b) = a ++ x :: b := by
  induction a with
  | nil => rfl
  | cons y ys ih => simp [insertAt, ih]

theorem rangeOrder_surjective {α : Type} (l p : List α) (h : p.Perm l) :
    ∃ cs : List Nat, rangeOrder cs l = p := by
  induction l generalizing p with
  | nil => exact ⟨[], by rw [h.eq_nil]; rfl⟩
  | cons x xs ih =>
    obtain ⟨a, b, rfl⟩ := List.mem_iff_append.1 (h.symm.subset (List.mem_cons_self x xs))
    have hab : (a ++ b).Perm xs := (List.perm_middle.symm.trans h).cons_inv
    obtain ⟨cs, hcs⟩ := ih (a ++ b) hab
    refine ⟨a.length :: cs, ?_⟩
    have hlt : a.length % ((a ++ b).length + 1) = a.length :=
      Nat.mod_eq_of_lt (by simp; omega)
    simp only [rangeOrder, List.tail_cons, List.headD_cons, hcs, hlt, insertAt_length_append]

theorem validateNumericStep_eq (sf : StructField) (n : Int) (errs : ValidationErrors)
    (e : String × Int) :
    validateNumericStep sf n errs e
      = errs ++ (if breached n e then [numericViolation sf n e] else []) := by
  obtain ⟨k, l⟩ := e
  unfold validateNumericStep breached numericViolation
  by_cases h1 : k = "min"
  · subst h1; by_cases h : n < l <;> simp [Min, Max, Len, h]
  · by_cases h2 : k = "max"
    · subst h2; by_cases h : n > l <;> simp [Min, Max, Len, h]
    · by_cases h3 : k = "len"
      · subst h3; by_cases h : n = l <;> simp [Min, Max, Len, h]
      · simp [Min, Max, Len, h1, h2, h3]

theorem foldl_validateNumericStep (sf : StructField) (n : Int) (l : List (String × Int))
    (errs : ValidationErrors) :
    l.foldl (validateNumericStep sf n) errs
      = errs ++ (l.filter (breached n)).map (numericViolation sf n) := by
  induction l generalizing errs with
  | nil => simp
  | cons e es ih =>
    rw [List.foldl_cons, ih, validateNumericStep_eq]
    by_cases h : breached n e <;> simp [h, List.filter_cons]

theorem validateNumeric_Errors (v : Validator) (val : Value) (sf : StructField)
    (opts : Options) :
    (validateNumeric v val sf opts).Errors
      = v.Errors ++ ((rangeOrder (v.sched.headD []) opts.Numeric).filter
          (breached (getNumericValue val))).map (numericViolation sf (getNumericValue val)) := by
  simp [validateNumeric, foldl_validateNumericStep]

theorem validateNumeric_appends (v : Validator) (val : Value) (sf : StructField)
    (opts : Options) :
    AppendsBreached sf opts.Numeric (getNumericValue val) v.Errors
        (validateNumeric v val sf opts).Errors
      ∧ (validateNumeric v val sf opts).Errors.length
          = v.Errors.length + opts.Numeric.countP (breached (getNumericValue val)) := by
  refine ⟨⟨rangeOrder (v.sched.headD []) opts.Numeric, rangeOrder_perm _ _,
    validateNumeric_Errors v val sf opts⟩, ?_⟩
  rw [validateNumeric_Errors, List.length_append, List.length_map, ← List.countP_eq_length_filter]
  rw [(rangeOrder_perm (v.sched.headD []) opts.Numeric).countP_eq]

/-- C1: for an integer value (magnitude: the integer) and for a string value
(magnitude: its length), whatever the options and the order in which the map is
visited, `validateNumeric` appends exactly one violation for each entry of
`Numeric` that is breached (`min`: magnitude below the threshold, `max`: above it,
`len`: different from it) and nothing for the other entries, so that the number of
violations added is the number of breached entries; `min` and `max` can both fire
on one value. -/
theorem validateNumeric_one_violation_per_breached_entry :
    (∀ (v : Validator) (sf : StructField) (opts : Options) (n : Int),
      AppendsBreached sf opts.Numeric n v.Errors
          (validateNumeric v (.int n) sf opts).Errors
        ∧ (validateNumeric v (.int n) sf opts).Errors.length
            = v.Errors.length + opts.Numeric.countP (breached n))
    ∧ (∀ (v : Validator) (sf : StructField) (opts : Options) (s : String),
      AppendsBreached sf opts.Numeric (len s) v.Errors
          (validateNumeric v (.str s) sf opts).Errors
        ∧ (validateNumeric v (.str s) sf opts).Errors.length
            = v.Errors.length + opts.Numeric.countP (breached (len s)))
    ∧ (∀ (m l : Int),
        (breached m ("min", l) = true ↔ m < l) ∧ (breached m ("max", l) = true ↔ m > l)
          ∧ (breached m ("len", l) = true ↔ m ≠ l))
    ∧ (∀ (v : Validator) (sf : StructField),
        (validateNumeric v (.int 8) sf { Numeric := [("min", 12), ("max", 5)] }).Errors.length
          = v.Errors.length + 2) := by
  refine ⟨fun v sf opts n => validateNumeric_appends v (.int n) sf opts,
    fun v sf opts s => validateNumeric_appends v (.str s) sf opts, ?_, ?_⟩
  · intro m l
    simp [breached]
  · intro v sf
    rw [(validateNumeric_appends v (.int 8) sf _).2]
    rfl

theorem splitChars_of_not_mem (sep : Char) (cs : List Char) (h : sep ∉ cs) :
    splitChars sep cs = [cs] := by
  induction cs with
  | nil => rfl
  | cons c cs ih =>
    have hc : c ≠ sep := fun e => h (by simp [e])
    have hcs : sep ∉ cs := fun e => h (by simp [e])
    simp [splitChars, hc, ih hcs]

theorem splitChars_append_sep (sep : Char) (a b : List Char) (h : sep ∉ a) :
    splitChars sep (a ++ sep :: b) = a :: splitChars sep b := by
  induction a with
  | nil => simp [splitChars]
  | cons c cs ih =>
    have hc : c ≠ sep := fun e => h (by simp [e])
    have hcs : sep ∉ cs := fun e => h (by simp [e])
    simp [splitChars, hc, ih hcs]

theorem dropWhile_space_of_not_mem (cs : List Char) (h : ' ' ∉ cs) :
    cs.dropWhile (fun c => decide (c = ' ')) = cs := by
  cases cs with
  | nil => rfl
  | cons c cs =>
    have hc : c ≠ ' ' := fun e => h (by simp [e])
    simp [List.dropWhile, hc]

theorem trimChars_of_not_mem (cs : List Char) (h : ' ' ∉ cs) : trimChars cs = cs := by
  unfold trimChars
  rw [dropWhile_space_of_not_mem cs h, dropWhile_space_of_not_mem cs.reverse (by simpa using h)]
  simp

theorem Trim_of_not_mem (s : String) (h : ' ' ∉ s.data) : Trim s = s := by
  simp [Trim, trimChars_of_not_mem s.data h]

theorem len_eq_zero_iff (s : String) : len s = 0 ↔ s = "" := by
  obtain ⟨cs⟩ := s
  cases cs with
  | nil => simp [len, String.utf8ByteSize, String.utf8ByteSize.go]
  | cons c cs =>
    have := Char.utf8Size_pos c
    simp [len, String.utf8ByteSize, String.utf8ByteSize.go]
    constructor
    · omega
    · intro h; exact absurd (congrArg String.data h) (by simp)

theorem contains_iff_mem {T : Type} [DecidableEq T] (l : List T) (x : T) :
    contains l x = true ↔ x ∈ l := by
  induction l with
  | nil => simp [contains]
  | cons y ys ih =>
    by_cases h : y = x
    · simp [contains, h]
    · have h2 : ¬ x = y := fun e => h e.symm
      simp [contains, h, h2, ih]

theorem digitVal_of_digit (c : Char) (h : '0' ≤ c ∧ c ≤ '9') :
    digitVal c = some (c.toNat - 48) := by
  simp [digitVal, h]

theorem foldlM_digits (ds : List Char) (h : ∀ c ∈ ds, '0' ≤ c ∧ c ≤ '9') (acc : Nat) :
    ds.foldlM (fun acc c => (digitVal c).map (fun d => 10 * acc + d)) acc
      = some (acc * 10 ^ ds.length
          + Nat.ofDigits 10 (ds.reverse.map (fun c => c.toNat - 48))) := by
  induction ds generalizing acc with
  | nil => simp
  | cons c cs ih =>
    have hc := digitVal_of_digit c (h c (by simp))
    have hcs : ∀ d ∈ cs, '0' ≤ d ∧ d ≤ '9' := fun d hd => h d (by simp [hd])
    simp only [List.foldlM_cons, hc, Option.map_some', Option.bind_eq_bind, Option.some_bind]
    rw [ih hcs]
    simp only [List.reverse_cons, List.map_append, List.map_cons, List.map_nil,
      Nat.ofDigits_append, List.length_map, List.length_reverse, Nat.ofDigits_singleton,
      List.length_cons]
    congr 1
    ring

theorem parseDigits_of_digits (ds : List Char) (h : IsDigits ds) :
    parseDigits ds = some (digitsValue ds) := by
  obtain ⟨hne, hd⟩ := h
  unfold parseDigits digitsValue
  rw [if_neg hne, foldlM_digits ds hd 0]
  simp

theorem digit_ne_sign (c : Char) (h : '0' ≤ c ∧ c ≤ '9') : c ≠ '-' ∧ c ≠ '+' ∧ c ≠ ' '
    ∧ c ≠ ';' ∧ c ≠ ':' ∧ c ≠ ',' := by
  refine ⟨?_, ?_, ?_, ?_, ?_, ?_⟩ <;> (intro e; subst e; revert h; decide)

theorem Atoi_decimalText (neg : Bool) (ds : List Char) (h : IsDigits ds) :
    Atoi (decimalText neg ds)
      = if -(2 : Int) ^ 63 ≤ decimalValue neg ds ∧ decimalValue neg ds < (2 : Int) ^ 63 then
          some (decimalValue neg ds)
        else none := by
  have hp := parseDigits_of_digits ds h
  unfold decimalValue
  generalize digitsValue ds = n at hp ⊢
  cases neg with
  | true =>
    simp only [Atoi, decimalText, if_true, List.singleton_append, List.head?_cons,
      true_or, List.tail_cons, hp, Option.some_bind, decide_True, intSize]
    by_cases hn : n ≤ 2 ^ 63
    · have : -(2 : Int) ^ 63 ≤ -(n : Int) ∧ -(n : Int) < (2 : Int) ^ 63 := by
        constructor <;> push_cast <;> omega
      rw [if_pos this]
      simp only [Nat.reduceSub, hn, if_true, if_false]
    · have : ¬ (-(2 : Int) ^ 63 ≤ -(n : Int) ∧ -(n : Int) < (2 : Int) ^ 63) := by
        intro hh; apply hn; have := hh.1; push_cast at this; omega
      rw [if_neg this]
      simp only [Nat.reduceSub, hn, if_true, if_false]
  | false =>
    obtain ⟨hne, hd⟩ := h
    cases ds with
    | nil => exact absurd rfl hne
    | cons c cs =>
      have hc := digit_ne_sign c (hd c (by simp))
      simp only [Atoi, decimalText, List.nil_append, List.head?_cons,
        Option.some.injEq, hc.1, hc.2.1, or_self, if_false, hp, Option.some_bind,
        decide_False, intSize, Bool.false_eq_true]
      by_cases hn : n < 2 ^ 63
      · have : -(2 : Int) ^ 63 ≤ (n : Int) ∧ (n : Int) < (2 : Int) ^ 63 := by
          constructor <;> push_cast <;> omega
        rw [if_pos this]
        simp only [Nat.reduceSub, hn, if_true, if_false]
      · have : ¬ (-(2 : Int) ^ 63 ≤ (n : Int) ∧ (n : Int) < (2 : Int) ^ 63) := by
          intro hh; apply hn; have := hh.2; push_cast at this; omega
        rw [if_neg this]
        simp only [Nat.reduceSub, hn, if_true, if_false]

theorem decimalText_not_mem (neg : Bool) (ds : List Char) (h : IsDigits ds) :
    ' ' ∉ (decimalText neg ds).data ∧ ';' ∉ (decimalText neg ds).data
      ∧ ':' ∉ (decimalText neg ds).data := by
  have hd : ∀ c ∈ ds, c ≠ ' ' ∧ c ≠ ';' ∧ c ≠ ':' := fun c hc =>
    ⟨(digit_ne_sign c (h.2 c hc)).2.2.1, (digit_ne_sign c (h.2 c hc)).2.2.2.1,
      (digit_ne_sign c (h.2 c hc)).2.2.2.2.1⟩
  refine ⟨?_, ?_, ?_⟩ <;>
  · intro hm
    cases neg <;> simp [decimalText] at hm
    all_goals have := hd _ hm; simp at this

theorem decimalText_ne_empty (neg : Bool) (ds : List Char) (h : IsDigits ds) :
    decimalText neg ds ≠ "" := by
  intro e
  have := congrArg String.data e
  cases neg <;> simp [decimalText] at this
  exact h.1 this

theorem parseOptions_single (kind : Kind) (name : String) (text : String)
    (hname : name = "min" ∨ name = "max" ∨ name = "len")
    (hne : text ≠ "")
    (hsp : ' ' ∉ text.data) (hsemi : ';' ∉ text.data) (hcol : ':' ∉ text.data) :
    parseOptions kind (name ++ ":" ++ text)
      = match Atoi text with
        | some n => ({ Numeric := [(name, n)] }, none)
        | none => ({}, some .ErrInvalidValidatorSyntax) := by
  have hn : ' ' ∉ name.data ∧ ';' ∉ name.data ∧ ':' ∉ name.data
      ∧ contains [Min, Max, Len] name = true := by
    rcases hname with h | h | h <;> subst h <;> decide
  have h1 : Split (name ++ ":" ++ text) ';' = [name ++ ":" ++ text] := by
    unfold Split
    rw [splitChars_of_not_mem]
    · rfl
    · simp [String.data_append, hn.2.1, hsemi]
  have h2 : Split (name ++ ":" ++ text) ':' = [name, text] := by
    unfold Split
    have : (name ++ ":" ++ text).data = name.data ++ ':' :: text.data := by
      simp [String.data_append]
    rw [this, splitChars_append_sep _ _ _ hn.2.2.1, splitChars_of_not_mem _ _ hcol]
    rfl
  have h3 : ¬ len text = 0 := fun e => hne ((len_eq_zero_iff text).1 e)
  simp only [parseOptions, parseOptionsLoop, h1, h2, Trim_of_not_mem name hn.1,
    Trim_of_not_mem text hsp, setOption, h3, if_false, hn.2.2.2, if_true, getNumericOption]
  cases Atoi text with
  | none => rfl
  | some n => simp [parseOptionsLoop, mapSet]

theorem rangeOrder_singleton {α : Type} (cs : List Nat) (x : α) : rangeOrder cs [x] = [x] := by
  simp [rangeOrder, Nat.mod_one, insertAt]

theorem append_ne_empty_of_colon (name text : String) : name ++ ":" ++ text ≠ "" := by
  intro e
  have := congrArg String.data e
  simp [String.data_append] at this

/-- C2 (amended): end to end through the tag text.  For a record with one exported
field of type `int` or `string` whose tag is the single clause `name:N`, with
`name` one of `min`, `max`, `len` and `N` an integer of the range of `int` written in
decimal (an optional `-`, then digits), `Validate` returns nil when the magnitude
of the value (the integer, or the length of the string) does not breach the clause
and otherwise exactly one violation, the one of that clause: `min` is breached iff
the magnitude is below `N`, `max` iff it is above, `len` iff it differs. -/
theorem Validate_single_numeric_clause (sched : List (List Nat)) (sf : StructField)
    (val : Value) (name : String) (neg : Bool) (ds : List Char)
    (hexp : sf.IsExported = true)
    (hname : name = "min" ∨ name = "max" ∨ name = "len")
    (hds : IsDigits ds)
    (hrange : -(2 : Int) ^ 63 ≤ decimalValue neg ds ∧ decimalValue neg ds < (2 : Int) ^ 63)
    (htag : sf.Tag = name ++ ":" ++ decimalText neg ds)
    (hty : (sf.Typ = .prim .Int ∧ ∃ i, val = .int i)
      ∨ (sf.Typ = .prim .String ∧ ∃ s, val = .str s)) :
    Validate sched (some (.struct [(sf, val)]))
      = some (if breached (magnitude val) (name, decimalValue neg ds) then
          .errs [numericViolation sf (magnitude val) (name, decimalValue neg ds)]
        else .nil) := by
  have hnm := decimalText_not_mem neg ds hds
  have hpi := parseOptions_single .Int name (decimalText neg ds) hname
    (decimalText_ne_empty neg ds hds) hnm.1 hnm.2.1 hnm.2.2
  have hps := parseOptions_single .String name (decimalText neg ds) hname
    (decimalText_ne_empty neg ds hds) hnm.1 hnm.2.1 hnm.2.2
  rw [Atoi_decimalText neg ds hds, if_pos hrange] at hpi hps
  have htne : sf.Tag ≠ "" := htag ▸ append_ne_empty_of_colon name _
  rcases hty with ⟨ht, i, rfl⟩ | ⟨ht, s, rfl⟩
  · by_cases hb : breached i (name, decimalValue neg ds) = true <;>
      simp [Validate, Value.Kind, Value.fields, ValidateField, htne, hexp, ht, Typ.Kind,
        getFieldOptions, ← htag, htag ▸ hpi, validateValue, validateIn, validateNumeric_Errors,
        rangeOrder_singleton, getNumericValue, Value.Int, magnitude, hb]
  · by_cases hb : breached (len s) (name, decimalValue neg ds) = true <;>
      simp [Validate, Value.Kind, Value.fields, ValidateField, htne, hexp, ht, Typ.Kind,
        getFieldOptions, ← htag, htag ▸ hps, validateValue, validateIn, validateNumeric_Errors,
        rangeOrder_singleton, getNumericValue, Value.String, magnitude, hb]

theorem setOption_in (o o2 : Options) (kind : Kind) (opt val : String)
    (h : setOption o kind opt val = (o2, none)) :
    (opt = "in" → o2.InStr.isSome = true ∧ (kind = .Int → o2.InInt.isSome = true)
        ∧ (kind ≠ .Int → o2.InInt = o.InInt))
      ∧ (opt ≠ "in" → o2.InStr = o.InStr ∧ o2.InInt = o.InInt) := by
  unfold setOption at h
  by_cases h0 : len val = 0
  · simp [h0] at h
  · simp only [h0, if_false] at h
    by_cases hc : contains [Min, Max, Len] opt = true
    · have hne : opt ≠ "in" := by
        intro e; subst e; revert hc; decide
      simp only [hc, if_true, getNumericOption] at h
      cases ha : Atoi val with
      | none => simp [ha] at h
      | some n =>
        simp only [ha, Prod.mk.injEq, and_true] at h
        subst h
        exact ⟨fun e => absurd e hne, fun _ => ⟨rfl, rfl⟩⟩
    · simp only [hc, if_false, Bool.false_eq_true] at h
      by_cases hi : opt = In
      · simp only [hi, if_true, parseInOption] at h
        refine ⟨fun _ => ?_, fun e => absurd hi e⟩
        by_cases hk : kind = .Int
        · simp only [hk, if_true, Prod.mk.injEq] at h
          obtain ⟨h, -⟩ := h
          subst h
          exact ⟨rfl, fun _ => rfl, fun e => absurd hk e⟩
        · simp only [hk, if_false, Prod.mk.injEq, and_true] at h
          subst h
          exact ⟨rfl, fun e => absurd e hk, fun _ => rfl⟩
      · simp only [hi, if_false, Prod.mk.injEq, and_true] at h
        subst h
        exact ⟨fun e => absurd e hi, fun _ => ⟨rfl, rfl⟩⟩

theorem parseOptionsLoop_in (kind : Kind) (clauses : List String) (o o2 : Options)
    (h : parseOptionsLoop kind o clauses = (o2, none)) :
    o2.InStr.isSome = (o.InStr.isSome || clauses.any isInClause)
      ∧ (kind = .Int → o.InInt.isSome = o.InStr.isSome → o2.InInt.isSome = o2.InStr.isSome)
      ∧ (kind ≠ .Int → o2.InInt = o.InInt) := by
  induction clauses generalizing o with
  | nil =>
    simp only [parseOptionsLoop, Prod.mk.injEq, and_true] at h
    subst h
    simp
  | cons s ss ih =>
    unfold parseOptionsLoop at h
    split at h
    · rename_i a w hs
      split at h
      · simp at h
      · rename_i o1 hset
        have hstep := setOption_in o o1 kind (Trim a) (Trim w) hset
        have hrec := ih o1 h
        have hcl : isInClause s = decide (Trim a = "in") := by simp [isInClause, hs]
        by_cases hin : Trim a = "in"
        · obtain ⟨h1, h2, h3⟩ := hstep.1 hin
          refine ⟨?_, ?_, ?_⟩
          · rw [hrec.1, h1]; simp [hcl, hin]
          · intro hk _; exact hrec.2.1 hk (by rw [h2 hk, h1])
          · intro hk; rw [hrec.2.2 hk, h3 hk]
        · obtain ⟨h1, h2⟩ := hstep.2 hin
          refine ⟨?_, ?_, ?_⟩
          · rw [hrec.1, h1]; simp [hcl, hin]
          · intro hk h0; exact hrec.2.1 hk (by rw [h1, h2, h0])
          · intro hk; rw [hrec.2.2 hk, h2]
    · simp at h

theorem parseOptions_in (kind : Kind) (tag : String) (opts : Options)
    (h : parseOptions kind tag = (opts, none)) :
    opts.InStr.isSome = hasInClause tag
      ∧ (kind = .Int → opts.InInt.isSome = hasInClause tag)
      ∧ (kind ≠ .Int → opts.InInt = none) := by
  have := parseOptionsLoop_in kind (Split tag ';') {} opts h
  refine ⟨by simpa [hasInClause] using this.1, fun hk => ?_, fun hk => by simpa using this.2.2 hk⟩
  rw [this.2.1 hk rfl]
  simpa [hasInClause] using this.1

/-- C2, witness: the field `MinInt int` tagged `min:10` with the value 5. -/
theorem Validate_single_numeric_clause_witness :
    Validate [] (some (.struct [(⟨"MinInt", "", .prim .Int, "min:10"⟩, .int 5)]))
      = some (if breached (magnitude (.int 5)) ("min", decimalValue false ['1', '0']) then
          .errs [numericViolation ⟨"MinInt", "", .prim .Int, "min:10"⟩ (magnitude (.int 5))
            ("min", decimalValue false ['1', '0'])]
        else .nil) :=
  Validate_single_numeric_clause [] ⟨"MinInt", "", .prim .Int, "min:10"⟩ (.int 5) "min" false
    ['1', '0'] rfl (Or.inl rfl) ⟨by decide, by decide⟩
    (by simp [decimalValue, digitsValue, Nat.ofDigits]) (by decide) (Or.inl ⟨rfl, 5, rfl⟩)

/-- C2 as stated fails for an integer outside the range of `int`: 2^63 is written
`9223372036854775808`; a string field of length 3 tagged `max:9223372036854775808`
gets a violation (the syntax one) although 3 is not above 2^63. -/
theorem Validate_clause_out_of_int_range :
    IsDigits "9223372036854775808".data
      ∧ decimalText false "9223372036854775808".data = "9223372036854775808"
      ∧ decimalValue false "9223372036854775808".data = 2 ^ 63
      ∧ ¬ (len "abc" > 2 ^ 63)
      ∧ Validate [] (some (.struct
          [(⟨"MaxStr", "", .prim .String, "max:9223372036854775808"⟩, .str "abc")]))
        = some (.errs [⟨.ErrInvalidValidatorSyntax⟩]) := by
  refine ⟨⟨by decide, by decide⟩, by decide, ?_, by decide, by decide⟩
  simp [decimalValue, digitsValue, Nat.ofDigits]

/-- C3: for options parsed successfully from a tag, `validateIn` appends exactly
one violation when the tag has an `in` clause, parsed for the kind of the value,
and the value equals none of the listed items (an integer is compared with the
items of `InInt`, a string with those of `InStr`); it appends nothing when the
value is listed, when there is no `in` clause, and for a value of another kind. -/
theorem validateIn_violation_iff_not_listed (kind : Kind) (tag : String) (opts : Options)
    (hparse : parseOptions kind tag = (opts, none)) :
    (∀ (v : Validator) (sf : StructField) (n : Int), kind = .Int →
      validateIn v (.int n) sf opts
        = if hasInClause tag = true ∧ n ∉ opts.InInt.getD [] then
            { v with Errors := v.Errors ++ [inViolation sf opts (formatInt n)] }
          else v)
    ∧ (∀ (v : Validator) (sf : StructField) (s : String), kind = .String →
      validateIn v (.str s) sf opts
        = if hasInClause tag = true ∧ s ∉ opts.InStr.getD [] then
            { v with Errors := v.Errors ++ [inViolation sf opts s] }
          else v)
    ∧ (∀ (v : Validator) (sf : StructField) (val : Value),
      val.Kind ≠ .Int → val.Kind ≠ .String → validateIn v val sf opts = v) := by
  have hin := parseOptions_in kind tag opts hparse
  refine ⟨?_, ?_, ?_⟩
  · intro v sf n hk
    have h1 : (opts.InInt ≠ none) ↔ hasInClause tag = true := by
      rw [← hin.2.1 hk, ← Option.isSome_iff_ne_none]
    have h2 : (¬ contains (opts.InInt.getD []) n = true) ↔ n ∉ opts.InInt.getD [] := by
      rw [contains_iff_mem]
    simp only [validateIn, Value.Kind, Value.Int, h1, h2, inViolation, In]
  · intro v sf s _
    have h1 : (opts.InStr ≠ none) ↔ hasInClause tag = true := by
      rw [← hin.1, ← Option.isSome_iff_ne_none]
    have h2 : (¬ contains (opts.InStr.getD []) s = true) ↔ s ∉ opts.InStr.getD [] := by
      rw [contains_iff_mem]
    simp only [validateIn, Value.Kind, Value.String, h1, h2, inViolation, In]
  · intro v sf val h1 h2
    unfold validateIn
    split
    · rename_i h; exact absurd h h1
    · rename_i h; exact absurd h h2
    · rfl

/-- C3, witness: the tag `in:20,25,30` on an integer field, with the value 2, which
is not listed. -/
theorem validateIn_violation_iff_not_listed_witness :
    parseOptions .Int "in:20,25,30"
        = ({ InStr := some ["20", "25", "30"], InInt := some [20, 25, 30] }, none)
      ∧ validateIn {} (.int 2) ⟨"InInt", "", .prim .Int, "in:20,25,30"⟩
          { InStr := some ["20", "25", "30"], InInt := some [20, 25, 30] }
        = { Errors := [⟨.Errorf
            "field \x27InInt\x27 of type int is not valid: has constraint (\x27in\x27: 20,25,30), but got value = 2"⟩] } := by
  refine ⟨by decide, ?_⟩
  rw [(validateIn_violation_iff_not_listed .Int "in:20,25,30"
    { InStr := some ["20", "25", "30"], InInt := some [20, 25, 30] } (by decide)).1 _ _ _ rfl]
  decide

theorem setOption_error (o o2 : Options) (kind : Kind) (opt val : String) (e : error)
    (h : setOption o kind opt val = (o2, some e)) : e = .ErrInvalidValidatorSyntax := by
  have hloop : ∀ (l : List String) (done : List Int) (e : error),
      (parseInLoop l done).2 = some e → e = .ErrInvalidValidatorSyntax := by
    intro l
    induction l with
    | nil => intro done e h; simp [parseInLoop] at h
    | cons x xs ih =>
      intro done e h
      unfold parseInLoop at h
      cases hx : Atoi x with
      | none => simp [hx] at h; exact h.symm
      | some n => simp only [hx] at h; exact ih _ _ h
  unfold setOption at h
  by_cases h0 : len val = 0
  · simp only [h0, if_true, Prod.mk.injEq, Option.some.injEq] at h
    exact h.2.symm
  · simp only [h0, if_false] at h
    by_cases hc : contains [Min, Max, Len] opt = true
    · simp only [hc, if_true, getNumericOption] at h
      cases ha : Atoi val with
      | none =>
        simp only [ha, Prod.mk.injEq, Option.some.injEq] at h
        exact h.2.symm
      | some n => simp [ha] at h
    · simp only [hc, if_false, Bool.false_eq_true] at h
      by_cases hi : opt = In
      · simp only [hi, if_true, parseInOption] at h
        by_cases hk : kind = .Int
        · simp only [hk, if_true, Prod.mk.injEq] at h
          exact hloop _ _ _ h.2
        · simp [hk] at h
      · simp [hi] at h

theorem parseOptionsLoop_error (kind : Kind) (clauses : List String) (o o2 : Options)
    (e : error) (h : parseOptionsLoop kind o clauses = (o2, some e)) :
    o2 = {} ∧ e = .ErrInvalidValidatorSyntax := by
  induction clauses generalizing o with
  | nil => simp [parseOptionsLoop] at h
  | cons s ss ih =>
    unfold parseOptionsLoop at h
    split at h
    · split at h
      · rename_i o1 e1 hset
        simp only [Prod.mk.injEq, Option.some.injEq] at h
        exact ⟨h.1.symm, h.2 ▸ setOption_error _ _ _ _ _ _ hset⟩
      · exact ih _ h
    · simp only [Prod.mk.injEq, Option.some.injEq] at h
      exact ⟨h.1.symm, h.2.symm⟩

theorem parseOptions_error (kind : Kind) (tag : String)
    (h : (parseOptions kind tag).2 ≠ none) :
    parseOptions kind tag = ({}, some .ErrInvalidValidatorSyntax) := by
  cases hp : parseOptions kind tag with
  | mk o r =>
    cases r with
    | none => rw [hp] at h; exact absurd rfl h
    | some e =>
      obtain ⟨h1, h2⟩ := parseOptionsLoop_error kind _ _ _ _ hp
      rw [h1, h2]

theorem validateValue_sched (v : Validator) (val : Value) (sf : StructField) (opts : Options) :
    (validateValue v val sf opts).sched = v.sched.tail := by
  unfold validateValue validateNumeric validateIn
  split <;> (try split) <;> rfl

theorem ValidateField_eq_foldl (v : Validator) (sf : StructField) (val : Value)
    (htag : sf.Tag ≠ "") (hexp : sf.IsExported = true) :
    ValidateField v sf val
      = (validatedValues sf val).foldl
          (fun w e => validateValue w e sf (getFieldOptions v (validatedKind sf) sf.Tag).2)
          (getFieldOptions v (validatedKind sf) sf.Tag).1 := by
  unfold ValidateField validatedValues validatedKind
  by_cases hs : sf.Typ.Kind = .Slice
  · simp [htag, hexp, hs, validateSlice]
  · simp [htag, hexp, hs]

theorem validateValue_no_options_eq (v : Validator) (val : Value) (sf : StructField) :
    validateValue v val sf {} = { Errors := v.Errors, sched := v.sched.tail } := by
  have h : validateIn v val sf {} = v := by
    unfold validateIn
    split <;> simp
  simp [validateValue, h, validateNumeric, rangeOrder]

theorem foldl_validateValue_no_options_eq (sf : StructField) (vals : List Value)
    (v : Validator) :
    vals.foldl (fun v e => validateValue v e sf {}) v
      = { Errors := v.Errors, sched := v.sched.drop vals.length } := by
  induction vals generalizing v with
  | nil => rfl
  | cons e es ih => rw [List.foldl_cons, ih, validateValue_no_options_eq]; simp

/-- C4: an exported field with a tag, of kind `int` or `string` or a slice of
these, whose tag fails to parse contributes exactly one violation, the
invalid-validator-syntax one, and no constraint violation, whatever its value and,
for a slice, whatever the number of its elements. -/
theorem ValidateField_tag_parse_failure (v : Validator) (sf : StructField) (val : Value)
    (htag : sf.Tag ≠ "") (hexp : sf.IsExported = true)
    (hkind : validatedKind sf = .Int ∨ validatedKind sf = .String)
    (hfail : (parseOptions (validatedKind sf) sf.Tag).2 ≠ none) :
    (ValidateField v sf val).Errors = v.Errors ++ [⟨.ErrInvalidValidatorSyntax⟩] := by
  have hg : getFieldOptions v (validatedKind sf) sf.Tag
      = ({ v with Errors := v.Errors ++ [⟨.ErrInvalidValidatorSyntax⟩] }, {}) := by
    unfold getFieldOptions
    rw [if_pos (hkind.symm), parseOptions_error _ _ hfail]
  rw [ValidateField_eq_foldl v sf val htag hexp, hg, foldl_validateValue_no_options_eq]

/-- C4, witness: the four malformed tags of the claim, on scalar fields and on a
slice field with three elements. -/
theorem ValidateField_tag_parse_failure_witness :
    (ValidateField {} ⟨"Foo", "", .prim .String, "len:abcdef"⟩ (.str "abc")).Errors
        = [] ++ [⟨.ErrInvalidValidatorSyntax⟩]
      ∧ (ValidateField {} ⟨"MinC", "", .prim .Int, "min:5-"⟩ (.int 12)).Errors
        = [] ++ [⟨.ErrInvalidValidatorSyntax⟩]
      ∧ (ValidateField {} ⟨"MinD", "", .sliceOf (.prim .Int), "min:"⟩
          (.slice [.int 11, .int 13, .int 12])).Errors
        = [] ++ [⟨.ErrInvalidValidatorSyntax⟩]
      ∧ (ValidateField {} ⟨"MinMax", "", .prim .Int, "min:5; max:abc"⟩ (.int 1)).Errors
        = [] ++ [⟨.ErrInvalidValidatorSyntax⟩] :=
  ⟨ValidateField_tag_parse_failure {} ⟨"Foo", "", .prim .String, "len:abcdef"⟩ (.str "abc")
      (by decide) (by decide) (by decide) (by decide),
    ValidateField_tag_parse_failure {} ⟨"MinC", "", .prim .Int, "min:5-"⟩ (.int 12)
      (by decide) (by decide) (by decide) (by decide),
    ValidateField_tag_parse_failure {} ⟨"MinD", "", .sliceOf (.prim .Int), "min:"⟩
      (.slice [.int 11, .int 13, .int 12]) (by decide) (by decide) (by decide) (by decide),
    ValidateField_tag_parse_failure {} ⟨"MinMax", "", .prim .Int, "min:5; max:abc"⟩ (.int 1)
      (by decide) (by decide) (by decide) (by decide)⟩

/-- C6: an exported field with a tag whose kind (for a slice: the kind of the
elements) is neither `int` nor `string` contributes exactly one violation, with
the message "field of type <kind> can not be validated", and no constraint
violation, whatever its value and the number of elements of a slice; the tag is
never parsed: the outcome is the same for every other tag text. -/
theorem ValidateField_unsupported_kind (v : Validator) (sf : StructField) (val : Value)
    (htag : sf.Tag ≠ "") (hexp : sf.IsExported = true)
    (hkind : validatedKind sf ≠ .Int ∧ validatedKind sf ≠ .String) :
    (ValidateField v sf val).Errors
        = v.Errors ++ [⟨.Errorf ("field of type " ++ kindName (validatedKind sf)
            ++ " can not be validated")⟩]
      ∧ ∀ tag : String, tag ≠ "" →
          ValidateField v { sf with Tag := tag } val = ValidateField v sf val := by
  have hg : ∀ tag : String, getFieldOptions v (validatedKind sf) tag
      = ({ v with Errors := v.Errors ++ [⟨.Errorf ("field of type "
          ++ kindName (validatedKind sf) ++ " can not be validated")⟩] }, {}) := by
    intro tag
    unfold getFieldOptions
    rw [if_neg (fun h => h.elim hkind.2 hkind.1)]
  refine ⟨?_, fun tag ht => ?_⟩
  · rw [ValidateField_eq_foldl v sf val htag hexp, hg, foldl_validateValue_no_options_eq]
  · rw [ValidateField_eq_foldl v sf val htag hexp,
      ValidateField_eq_foldl v { sf with Tag := tag } val ht hexp]
    have hk : validatedKind { sf with Tag := tag } = validatedKind sf := rfl
    have hv : validatedValues { sf with Tag := tag } val = validatedValues sf val := rfl
    rw [hk, hv, hg, hg, foldl_validateValue_no_options_eq, foldl_validateValue_no_options_eq]

/-- C6, witness: the field `F float64` tagged `len:10`. -/
theorem ValidateField_unsupported_kind_witness :
    (ValidateField {} ⟨"F", "", .prim .Float64, "len:10"⟩ (.other .Float64)).Errors
        = [⟨.Errorf "field of type float64 can not be validated"⟩]
      ∧ ValidateField {} ⟨"F", "", .prim .Float64, "len:abcdef"⟩ (.other .Float64)
        = ValidateField {} ⟨"F", "", .prim .Float64, "len:10"⟩ (.other .Float64) :=
  ⟨(ValidateField_unsupported_kind {} ⟨"F", "", .prim .Float64, "len:10"⟩ (.other .Float64)
      (by decide) (by decide) (by decide)).1,
    (ValidateField_unsupported_kind {} ⟨"F", "", .prim .Float64, "len:10"⟩ (.other .Float64)
      (by decide) (by decide) (by decide)).2 "len:abcdef" (by decide)⟩

/-- C7: for an unexported field with a non-empty tag `ValidateField` appends exactly
one violation, the unexported-field one, and does nothing else, whatever the tag
text, the kind of the field and its value. -/
theorem ValidateField_unexported_tagged (v : Validator) (sf : StructField) (val : Value)
    (htag : sf.Tag ≠ "") (hexp : sf.IsExported = false) :
    ValidateField v sf val
      = { v with Errors := v.Errors ++ [⟨.ErrValidateForUnexportedFields⟩] } := by
  simp [ValidateField, htag, hexp]

/-- C7, witness: the field `foo string` tagged `len:10`. -/
theorem ValidateField_unexported_tagged_witness :
    ValidateField {} ⟨"foo", "validator", .prim .String, "len:10"⟩ (.str "")
      = { ({} : Validator) with
          Errors := ({} : Validator).Errors ++ [⟨.ErrValidateForUnexportedFields⟩] } :=
  ValidateField_unexported_tagged {} ⟨"foo", "validator", .prim .String, "len:10"⟩ (.str "")
    (by decide) (by decide)

/-- C8 as stated fails: an unexported field without a tag contributes nothing, and
a record whose only field is such a field validates successfully. -/
theorem untagged_unexported_field_passes :
    ValidateField {} ⟨"f1", "validator", .prim .String, ""⟩ (.str "") = {}
      ∧ Validate [] (some (.struct [(⟨"f1", "validator", .prim .String, ""⟩, .str "")]))
        = some .nil := by
  decide

/-- C8 (amended): an unexported field with a non-empty tag contributes exactly one
violation, the fixed unexported-field one, and is not processed further; an
unexported field without a tag contributes nothing. -/
theorem unexported_field_violation_iff_tagged (v : Validator) (sf : StructField) (val : Value)
    (hexp : sf.IsExported = false) :
    ValidateField v sf val
      = if sf.Tag = "" then v
        else { Errors := v.Errors ++ [⟨.ErrValidateForUnexportedFields⟩], sched := v.sched } := by
  by_cases htag : sf.Tag = "" <;> simp [ValidateField, htag, hexp]

/-- C8, witness: the unexported field `f2 float32` without a tag. -/
theorem unexported_field_violation_iff_tagged_witness :
    ValidateField {} ⟨"f2", "validator", .prim .Float32, ""⟩ (.other .Float32)
      = if (⟨"f2", "validator", .prim .Float32, ""⟩ : StructField).Tag = "" then {}
        else { Errors := ({} : Validator).Errors ++ [⟨.ErrValidateForUnexportedFields⟩],
               sched := ({} : Validator).sched } :=
  unexported_field_violation_iff_tagged {} ⟨"f2", "validator", .prim .Float32, ""⟩ (.other .Float32)
    (by decide)

theorem foldl_ValidateField_untagged (fields : List (StructField × Value))
    (h : ∀ f ∈ fields, f.1.Tag = "") (v : Validator) :
    fields.foldl (fun vld f => ValidateField vld f.1 f.2) v = v := by
  induction fields generalizing v with
  | nil => rfl
  | cons f fs ih =>
    have hf : f.1.Tag = "" := h f (by simp)
    have hfs : ∀ g ∈ fs, g.1.Tag = "" := fun g hg => h g (by simp [hg])
    rw [List.foldl_cons, ih hfs]
    simp [ValidateField, hf]

/-- C9: for a record without fields, or whose fields all have no tag (whatever their
kind and whether exported or not), `Validate` returns nil. -/
theorem Validate_untagged_record (sched : List (List Nat))
    (fields : List (StructField × Value)) (h : ∀ f ∈ fields, f.1.Tag = "") :
    Validate sched (some (.struct fields)) = some .nil := by
  simp [Validate, Value.Kind, Value.fields, foldl_ValidateField_untagged fields h]

/-- C9, witness: the record with the two unexported, untagged fields `f1`, `f2` of
type `float32`. -/
theorem Validate_untagged_record_witness :
    Validate [] (some (.struct [(⟨"f1", "validator", .prim .Float32, ""⟩, .other .Float32),
      (⟨"f2", "validator", .prim .Float32, ""⟩, .other .Float32)])) = some .nil :=
  Validate_untagged_record [] _ (by decide)

theorem validateIn_frame (v : Validator) (val : Value) (sf : StructField) (opts : Options) :
    validateIn v val sf opts
      = { Errors := v.Errors ++ (validateIn {} val sf opts).Errors, sched := v.sched } := by
  unfold validateIn
  split <;> (try split) <;> simp

theorem validateValue_frame (v : Validator) (val : Value) (sf : StructField)
    (opts : Options) :
    validateValue v val sf opts
      = { Errors := v.Errors ++ valueViolations (v.sched.headD []) val sf opts,
          sched := v.sched.tail } := by
  have h1 : validateValue v val sf opts
      = { Errors := (validateValue v val sf opts).Errors,
          sched := (validateValue v val sf opts).sched } := rfl
  rw [h1, validateValue_sched]
  congr 1
  unfold valueViolations validateValue
  rw [validateNumeric_Errors, validateNumeric_Errors, validateIn_frame v,
    validateIn_frame { Errors := [], sched := [v.sched.headD []] }]
  simp

theorem valueViolations_perm (cs : List Nat) (val : Value) (sf : StructField)
    (opts : Options) :
    (valueViolations cs val sf opts).Perm (valueViolations [] val sf opts) := by
  unfold valueViolations validateValue
  rw [validateNumeric_Errors, validateNumeric_Errors, validateIn_frame { Errors := [], sched := [cs] },
    validateIn_frame { Errors := [], sched := [[]] }]
  simp only [List.nil_append, List.headD_cons]
  apply List.Perm.append_left
  apply List.Perm.map
  apply List.Perm.filter
  exact (rangeOrder_perm _ _).trans (rangeOrder_perm _ _).symm

theorem foldl_validateValue (sf : StructField) (opts : Options) (vals : List Value)
    (v : Validator) :
    vals.foldl (fun w e => validateValue w e sf opts) v
      = { Errors := v.Errors ++ (elementViolations sf opts v.sched vals).flatten,
          sched := v.sched.drop vals.length } := by
  induction vals generalizing v with
  | nil => simp [elementViolations]
  | cons e es ih =>
    rw [List.foldl_cons, ih, validateValue_frame]
    simp [elementViolations, List.append_assoc]

theorem elementViolations_perm (sf : StructField) (opts : Options) (vals : List Value)
    (sc : List (List Nat)) :
    List.Forall₂ (fun part e => part.Perm (valueViolations [] e sf opts))
      (elementViolations sf opts sc vals) vals := by
  induction vals generalizing sc with
  | nil => exact List.Forall₂.nil
  | cons e es ih => exact List.Forall₂.cons (valueViolations_perm _ _ _ _) (ih _)

theorem flatten_perm_of_forall₂ {α β : Type} (g : β → List α) (parts : List (List α))
    (xs : List β) (h : List.Forall₂ (fun part x => part.Perm (g x)) parts xs) :
    parts.flatten.Perm (xs.map g).flatten ∧ parts.flatten.length = (xs.map (fun x => (g x).length)).sum := by
  induction h with
  | nil => simp
  | cons hp _ ih =>
    simp only [List.flatten_cons, List.map_cons, List.length_append, List.sum_cons]
    exact ⟨hp.append ih.1, by rw [ih.2, hp.length_eq]⟩

theorem getFieldOptions_frame (v : Validator) (kind : Kind) (tag : String) :
    getFieldOptions v kind tag
      = ({ Errors := v.Errors ++ (getFieldOptions {} kind tag).1.Errors, sched := v.sched },
          (getFieldOptions {} kind tag).2) := by
  unfold getFieldOptions
  generalize (if kind = Kind.String ∨ kind = Kind.Int then parseOptions kind tag
    else ({}, some (.Errorf ("field of type " ++ kindName kind ++ " can not be validated")))) = r
  obtain ⟨o, e⟩ := r
  cases e <;> simp

theorem getFieldOptions_of_parse (v : Validator) (kind : Kind) (tag : String) (opts : Options)
    (hkind : kind = .Int ∨ kind = .String) (hparse : parseOptions kind tag = (opts, none)) :
    getFieldOptions v kind tag = (v, opts) := by
  unfold getFieldOptions
  rw [if_pos hkind.symm, hparse]

/-- C5: for an exported slice field whose elements are of kind `int` or `string`
and whose tag parses to the options `opts`, the violations of the field are the
concatenation, in element order, of the violations that `validateValue` produces
for each element with the same `opts`; the violations of an element are, up to the
order in which the map is visited, those of that element validated alone, so the
violation count of the field is the sum of the counts of the elements, and an
empty slice yields none. -/
theorem ValidateField_slice_concatenates_elements (v : Validator) (sf : StructField)
    (elems : List Value) (opts : Options)
    (htag : sf.Tag ≠ "") (hexp : sf.IsExported = true) (hslice : sf.Typ.Kind = .Slice)
    (hkind : sf.Typ.Elem.Kind = .Int ∨ sf.Typ.Elem.Kind = .String)
    (hparse : parseOptions sf.Typ.Elem.Kind sf.Tag = (opts, none)) :
    (ValidateField v sf (.slice elems)).Errors
        = v.Errors ++ (elementViolations sf opts v.sched elems).flatten
      ∧ List.Forall₂ (fun part e => part.Perm (valueViolations [] e sf opts))
          (elementViolations sf opts v.sched elems) elems
      ∧ (ValidateField v sf (.slice elems)).Errors.length
          = v.Errors.length + (elems.map (fun e => (valueViolations [] e sf opts).length)).sum
      ∧ (ValidateField v sf (.slice [])).Errors = v.Errors := by
  have hk : validatedKind sf = sf.Typ.Elem.Kind := by simp [validatedKind, hslice]
  have hv : ∀ es : List Value, validatedValues sf (.slice es) = es := by
    intro es; simp [validatedValues, hslice, Value.elems]
  have hE : ∀ es : List Value, (ValidateField v sf (.slice es)).Errors
      = v.Errors ++ (elementViolations sf opts v.sched es).flatten := by
    intro es
    rw [ValidateField_eq_foldl v sf _ htag hexp, hk, hv,
      getFieldOptions_of_parse v _ _ opts hkind hparse, foldl_validateValue]
  have hP := elementViolations_perm sf opts elems v.sched
  refine ⟨hE elems, hP, ?_, ?_⟩
  · rw [hE elems, List.length_append, (flatten_perm_of_forall₂ _ _ _ hP).2]
  · rw [hE []]; simp [elementViolations]

/-- C5, witness: the field `Higher []string` tagged `len:5` with four elements, two
of which have another length. -/
theorem ValidateField_slice_concatenates_elements_witness :
    (ValidateField {} ⟨"Higher", "", .sliceOf (.prim .String), "len:5"⟩
        (.slice [.str "abcdef", .str "rock", .str "o", .str "kanye"])).Errors.length
      = ({} : Validator).Errors.length
        + ([Value.str "abcdef", .str "rock", .str "o", .str "kanye"].map (fun e =>
            (valueViolations [] e ⟨"Higher", "", .sliceOf (.prim .String), "len:5"⟩
              { Numeric := [("len", 5)] }).length)).sum :=
  (ValidateField_slice_concatenates_elements {}
    ⟨"Higher", "", .sliceOf (.prim .String), "len:5"⟩
    [.str "abcdef", .str "rock", .str "o", .str "kanye"] { Numeric := [("len", 5)] }
    (by decide) (by decide) (by decide) (by decide) (by decide)).2.2.1

theorem ValidateField_frame (v : Validator) (sf : StructField) (val : Value) :
    ValidateField v sf val
      = { Errors := v.Errors ++ fieldViolations v.sched (sf, val),
          sched := (ValidateField { Errors := [], sched := v.sched } sf val).sched } := by
  unfold fieldViolations
  by_cases htag : sf.Tag = ""
  · simp [ValidateField, htag]
  · by_cases hexp : sf.IsExported = true
    · rw [ValidateField_eq_foldl v sf val htag hexp,
        ValidateField_eq_foldl { Errors := [], sched := v.sched } sf val htag hexp,
        getFieldOptions_frame v,
        getFieldOptions_frame { Errors := [], sched := v.sched }]
      simp only [foldl_validateValue, List.nil_append, List.append_assoc]
    · simp [ValidateField, htag, hexp]

theorem fieldViolations_perm (sc : List (List Nat)) (f : StructField × Value) :
    (fieldViolations sc f).Perm (fieldViolations [] f) := by
  obtain ⟨sf, val⟩ := f
  unfold fieldViolations
  by_cases htag : sf.Tag = ""
  · simp [ValidateField, htag]
  · by_cases hexp : sf.IsExported = true
    · rw [ValidateField_eq_foldl _ sf val htag hexp, ValidateField_eq_foldl _ sf val htag hexp,
        getFieldOptions_frame { Errors := [], sched := sc },
        getFieldOptions_frame { Errors := [], sched := [] }]
      simp only [foldl_validateValue, List.nil_append]
      apply List.Perm.append_left
      exact (flatten_perm_of_forall₂ _ _ _ (elementViolations_perm sf _ _ sc)).1.trans
        (flatten_perm_of_forall₂ _ _ _ (elementViolations_perm sf _ _ [])).1.symm
    · simp [ValidateField, htag, hexp]

theorem foldl_ValidateField (fields : List (StructField × Value)) (v : Validator) :
    (fields.foldl (fun vld f => ValidateField vld f.1 f.2) v).Errors
      = v.Errors ++ (recordViolations v.sched fields).flatten := by
  induction fields generalizing v with
  | nil => simp [recordViolations]
  | cons f fs ih =>
    rw [List.foldl_cons, ih, ValidateField_frame]
    simp [recordViolations, List.append_assoc]

theorem recordViolations_perm (fields : List (StructField × Value)) (sc : List (List Nat)) :
    List.Forall₂ (fun part f => part.Perm (fieldViolations [] f))
      (recordViolations sc fields) fields := by
  induction fields generalizing sc with
  | nil => exact List.Forall₂.nil
  | cons f fs ih => exact List.Forall₂.cons (fieldViolations_perm _ _) (ih _)

theorem flatten_eq_nil_of_forall₂ {α β : Type} (g : β → List α) (parts : List (List α))
    (xs : List β) (h : List.Forall₂ (fun part x => part.Perm (g x)) parts xs) :
    parts.flatten = [] ↔ ∀ x ∈ xs, g x = [] := by
  induction h with
  | nil => simp
  | cons hp _ ih =>
    rename_i p x ps xs'
    simp only [List.flatten_cons, List.append_eq_nil, ih, List.mem_cons, forall_eq_or_imp]
    constructor
    · rintro ⟨h1, h2⟩
      exact ⟨List.Perm.eq_nil (h1 ▸ hp).symm, h2⟩
    · rintro ⟨h1, h2⟩
      exact ⟨List.Perm.eq_nil (h1 ▸ hp), h2⟩

theorem intercalate_go_append (a b sep : String) (l : List String) :
    String.intercalate.go (a ++ b) sep l = a ++ String.intercalate.go b sep l := by
  induction l generalizing b with
  | nil => rfl
  | cons x xs ih =>
    have h := ih (b ++ sep ++ x)
    simpa [String.intercalate.go, String.append_assoc] using h

/-- C10: for every record and every order of the map loops, `Validate` returns the
violations of all the fields concatenated in declaration order, and nil iff no
field produces a violation.  The part of a field is what `ValidateField` produces
for that field alone (up to the order in which the map is visited), so a violation
or a parse failure in one field does not suppress those of the later fields.  The
error text is the messages joined by ";\n" in that order; for a single violation it
is its message, without separator. -/
theorem Validate_concatenates_field_violations (sched : List (List Nat))
    (fields : List (StructField × Value)) :
    Validate sched (some (.struct fields))
        = some (if (recordViolations sched fields).flatten = [] then .nil
            else .errs (recordViolations sched fields).flatten)
      ∧ List.Forall₂ (fun part f => part.Perm (fieldViolations [] f))
          (recordViolations sched fields) fields
      ∧ (Validate sched (some (.struct fields)) = some .nil
          ↔ ∀ f ∈ fields, fieldViolations [] f = [])
      ∧ (∀ e : ValidationError, ValidationErrors.Error [e] = e.Err.Error)
      ∧ (∀ (e1 e2 : ValidationError) (es : ValidationErrors),
          ValidationErrors.Error (e1 :: e2 :: es)
            = e1.Err.Error ++ ";\n" ++ ValidationErrors.Error (e2 :: es)) := by
  have hV : Validate sched (some (.struct fields))
      = some (if (recordViolations sched fields).flatten = [] then .nil
          else .errs (recordViolations sched fields).flatten) := by
    simp only [Validate, Value.Kind, Value.fields, ne_eq, not_true_eq_false, if_false,
      foldl_ValidateField, List.nil_append, List.length_eq_zero]
    by_cases h : (recordViolations sched fields).flatten = [] <;> simp [h]
  have hP := recordViolations_perm fields sched
  refine ⟨hV, hP, ?_, ?_, ?_⟩
  · rw [hV, ← flatten_eq_nil_of_forall₂ _ _ _ hP]
    by_cases h : (recordViolations sched fields).flatten = [] <;> simp [h]
  · intro e
    simp [ValidationErrors.Error, Join, String.intercalate, String.intercalate.go]
  · intro e1 e2 es
    simp only [ValidationErrors.Error, Join, String.intercalate, String.intercalate.go,
      List.map_cons]
    rw [String.append_assoc, intercalate_go_append, String.append_assoc,
      intercalate_go_append]

/-- C11, the code at the failing input: for the nil interface value `Validate`
panics instead of returning `ErrNotStruct` (`reflect.TypeOf(nil)` is the nil
`Type`, on which `Kind()` is called); for the other inputs that are not a struct,
such as a map, a string, a pointer or an integer, it returns `ErrNotStruct`. -/
theorem Validate_nil_interface_panics :
    (∀ sched : List (List Nat), Validate sched none = none)
      ∧ (∀ sched : List (List Nat),
          Validate sched (some (.other .Map)) = some (.err .ErrNotStruct)
            ∧ Validate sched (some (.str "some string")) = some (.err .ErrNotStruct)
            ∧ Validate sched (some (.other .Pointer)) = some (.err .ErrNotStruct)
            ∧ Validate sched (some (.int 7)) = some (.err .ErrNotStruct)) := by
  refine ⟨fun _ => rfl, fun _ => ⟨rfl, rfl, rfl, rfl⟩⟩

/-- C14 as stated fails: a tab before the value is not stripped, so the tag
`min:<tab>10` is rejected, while `min: 10` parses to the entry `min` = 10. -/
theorem tab_before_value_rejected :
    parseOptions .Int "min:\t10" = ({}, some .ErrInvalidValidatorSyntax)
      ∧ parseOptions .Int "min: 10" = ({ Numeric := [("min", 10)] }, none)
      ∧ Trim "\t10" = "\t10" ∧ Trim "\n10" = "\n10" ∧ Trim " 10 " = "10" := by
  decide

/-- C15 as stated fails: the value `+5` is accepted, with the entry `min` = 5, and
the decimal integer `9223372036854775808` is rejected. -/
theorem plus_sign_accepted :
    parseOptions .Int "min:+5" = ({ Numeric := [("min", 5)] }, none)
      ∧ setOption {} .Int "min" "+5" = ({ Numeric := [("min", 5)] }, none)
      ∧ setOption {} .Int "min" "9223372036854775808" = ({}, some .ErrInvalidValidatorSyntax) := by
  decide

/-- C18 as stated fails: for the field `MinMax int` tagged `min:12; max:5` and the
value 8, two runs that visit the map `Numeric` in different orders return the two
violations in different orders. -/
theorem numeric_violations_order_not_fixed :
    Validate [] (some (.struct [(⟨"MinMax", "", .prim .Int, "min:12; max:5"⟩, .int 8)]))
        = some (.errs [
          ⟨.Errorf "field \x27MinMax\x27 of type int is not valid: has constraint (\x27min\x27: 12), but got value = 8"⟩,
          ⟨.Errorf "field \x27MinMax\x27 of type int is not valid: has constraint (\x27max\x27: 5), but got value = 8"⟩])
      ∧ Validate [[1]] (some (.struct [(⟨"MinMax", "", .prim .Int, "min:12; max:5"⟩, .int 8)]))
        = some (.errs [
          ⟨.Errorf "field \x27MinMax\x27 of type int is not valid: has constraint (\x27max\x27: 5), but got value = 8"⟩,
          ⟨.Errorf "field \x27MinMax\x27 of type int is not valid: has constraint (\x27min\x27: 12), but got value = 8"⟩]) := by
  decide

theorem parseInLoop_snd (l : List String) (done : List Int) :
    (parseInLoop l done).2
      = if l.any (fun item => !isInteger item) then some .ErrInvalidValidatorSyntax
        else none := by
  induction l generalizing done with
  | nil => rfl
  | cons v vs ih =>
    unfold parseInLoop
    cases hv : Atoi v with
    | none => simp [isInteger, hv]
    | some n => simp [isInteger, hv, ih]

theorem parseInLoop_fst (l : List String) (done : List Int)
    (h : l.any (fun item => !isInteger item) = false) :
    (parseInLoop l done).1 = done ++ l.map (fun item => (Atoi item).getD 0) := by
  induction l generalizing done with
  | nil => simp [parseInLoop]
  | cons v vs ih =>
    unfold parseInLoop
    cases hv : Atoi v with
    | none => simp [isInteger, hv] at h
    | some n =>
      have hvs : vs.any (fun item => !isInteger item) = false := by
        simp only [List.any_cons, Bool.or_eq_false_iff] at h
        exact h.2
      simp [ih _ hvs, hv]

theorem contains_numeric (opt : String) :
    contains [Min, Max, Len] opt = decide (opt = "min" ∨ opt = "max" ∨ opt = "len") := by
  by_cases h1 : opt = "min"
  · subst h1; decide
  · by_cases h2 : opt = "max"
    · subst h2; decide
    · by_cases h3 : opt = "len"
      · subst h3; decide
      · have e1 : ¬ "min" = opt := fun e => h1 e.symm
        have e2 : ¬ "max" = opt := fun e => h2 e.symm
        have e3 : ¬ "len" = opt := fun e => h3 e.symm
        simp [contains, Min, Max, Len, h1, h2, h3, e1, e2, e3]

theorem setOption_snd (o : Options) (kind : Kind) (opt val : String) :
    (setOption o kind opt val).2
      = if rejected kind opt val then some .ErrInvalidValidatorSyntax else none := by
  unfold setOption rejected
  by_cases h0 : val = ""
  · simp [h0, len_eq_zero_iff]
  · have h0' : ¬ len val = 0 := fun e => h0 ((len_eq_zero_iff val).1 e)
    simp only [h0', if_false, contains_numeric, h0, decide_False, Bool.false_or]
    by_cases hn : opt = "min" ∨ opt = "max" ∨ opt = "len"
    · have hi : opt ≠ "in" := by
        rcases hn with h | h | h <;> subst h <;> decide
      simp only [hn, decide_True, if_true, getNumericOption, Bool.true_and, hi, decide_False,
        Bool.false_and, Bool.or_false]
      cases hv : Atoi val <;> simp [isInteger, hv]
    · simp only [hn, decide_False, Bool.false_eq_true, if_false, Bool.false_and, Bool.false_or,
        In]
      by_cases hi : opt = "in"
      · simp only [hi, if_true, parseInOption, decide_True, Bool.true_and]
        by_cases hk : kind = .Int
        · simp [hk, parseInLoop_snd]
        · simp [hk]
      · simp [hi]

theorem setOption_fst (o : Options) (kind : Kind) (opt val : String)
    (h : rejected kind opt val = false) :
    (setOption o kind opt val).1
      = if opt = "min" ∨ opt = "max" ∨ opt = "len" then
          { o with Numeric := mapSet o.Numeric opt ((Atoi val).getD 0) }
        else if opt = "in" then
          { o with
            InStr := some (Split val ','),
            InInt := if kind = .Int then
                some ((Split val ',').map (fun item => (Atoi item).getD 0))
              else o.InInt }
        else o := by
  unfold rejected at h
  simp only [Bool.or_eq_false_iff, decide_eq_false_iff_not, Bool.and_eq_false_iff] at h
  obtain ⟨⟨h0, h1⟩, h2⟩ := h
  have h0' : ¬ len val = 0 := fun e => h0 ((len_eq_zero_iff val).1 e)
  unfold setOption
  simp only [h0', if_false, contains_numeric]
  by_cases hn : opt = "min" ∨ opt = "max" ∨ opt = "len"
  · simp only [hn, decide_True, if_true, getNumericOption]
    cases hv : Atoi val with
    | none => simp [hn, isInteger, hv] at h1
    | some n => simp
  · simp only [hn, decide_False, Bool.false_eq_true, if_false, In]
    by_cases hi : opt = "in"
    · simp only [hi, if_true, parseInOption]
      by_cases hk : kind = .Int
      · have hany : (Split val ',').any (fun item => !isInteger item) = false := by
          rcases h2 with (h2 | h2) | h2
          · exact absurd hi h2
          · exact absurd hk h2
          · exact h2
        simp [hk, parseInLoop_fst _ _ hany]
      · simp [hk]
    · simp [hi]

theorem parseOptionsLoop_eq (kind : Kind) (clauses : List String) (o : Options) :
    parseOptionsLoop kind o clauses
      = if clauses.any (clauseMalformed kind) then ({}, some .ErrInvalidValidatorSyntax)
        else (clauses.foldl (applyClause kind) o, none) := by
  induction clauses generalizing o with
  | nil => rfl
  | cons s ss ih =>
    unfold parseOptionsLoop
    simp only [List.any_cons, List.foldl_cons, clauseMalformed, applyClause]
    split
    · rename_i n w hs
      have hsnd := setOption_snd o kind (Trim n) (Trim w)
      by_cases hr : rejected kind (Trim n) (Trim w) = true
      · rw [if_pos hr] at hsnd
        split
        · rename_i o1 e1 hset
          rw [hset] at hsnd
          simp only [Option.some.injEq] at hsnd
          simp [hr, hsnd]
        · rename_i o1 hset
          rw [hset] at hsnd
          simp at hsnd
      · rw [if_neg hr] at hsnd
        split
        · rename_i o1 e1 hset
          rw [hset] at hsnd
          simp at hsnd
        · rename_i o1 hset
          rw [ih, hset]
          simp [hr]
    · rename_i hs
      have : (match Split s ':' with
          | [o, w] => rejected kind (Trim o) (Trim w)
          | _ => true) = true := by
        split
        · rename_i n w hs2; exact absurd hs2 (hs n w)
        · rfl
      simp [this]

theorem splitChars_ne_nil (sep : Char) (cs : List Char) : splitChars sep cs ≠ [] := by
  cases cs with
  | nil => simp [splitChars]
  | cons c cs =>
    unfold splitChars
    split
    · simp
    · split <;> simp

theorem splitChars_append_singleton_sep (sep : Char) (cs : List Char) :
    splitChars sep (cs ++ [sep]) = splitChars sep cs ++ [[]] := by
  induction cs with
  | nil => simp [splitChars]
  | cons c cs ih =>
    by_cases hc : c = sep
    · simp [splitChars, hc, ih]
    · simp only [List.cons_append, splitChars, hc, if_false]
      rw [show cs.append [sep] = cs ++ [sep] from rfl, ih]
      cases hs : splitChars sep cs with
      | nil => exact absurd hs (splitChars_ne_nil sep cs)
      | cons p ps => simp

theorem parseOptions_snd (kind : Kind) (tag : String) :
    (parseOptions kind tag).2
      = if (Split tag ';').any (clauseMalformed kind) then some .ErrInvalidValidatorSyntax
        else none := by
  unfold parseOptions
  rw [parseOptionsLoop_eq]
  split <;> rfl

theorem parseOptions_fst (kind : Kind) (tag : String)
    (h : (Split tag ';').any (clauseMalformed kind) = false) :
    parseOptions kind tag = ((Split tag ';').foldl (applyClause kind) {}, none) := by
  unfold parseOptions
  rw [parseOptionsLoop_eq, h]
  rfl

theorem parseOptions_snd_iff (kind : Kind) (tag : String) :
    ((parseOptions kind tag).2 = some .ErrInvalidValidatorSyntax
        ↔ ∃ s ∈ Split tag ';', clauseMalformed kind s = true)
      ∧ ((parseOptions kind tag).2 = none
        ↔ ¬ ∃ s ∈ Split tag ';', clauseMalformed kind s = true) := by
  rw [parseOptions_snd, ← List.any_eq_true]
  by_cases h : (Split tag ';').any (clauseMalformed kind) = true <;> simp [h]

theorem empty_mem_Split_trailing (tag : String) : "" ∈ Split (tag ++ ";") ';' := by
  have : (tag ++ ";").data = tag.data ++ [';'] := by simp [String.data_append]
  simp only [Split, this, splitChars_append_singleton_sep, List.map_append, List.map_cons,
    List.map_nil, List.mem_append, List.mem_singleton]
  exact Or.inr trivial

theorem foldl_applyClause_last {β : Type} (proj : Options → β) (g : String → β)
    (kind : Kind) (name : String) (clauses : List String)
    (hset : ∀ (o : Options) (s w : String), s ∈ clauses → clauseValue name s = some w →
      proj (applyClause kind o s) = g w)
    (hkeep : ∀ (o : Options) (s : String), s ∈ clauses → clauseValue name s = none →
      proj (applyClause kind o s) = proj o)
    (o : Options) :
    proj (clauses.foldl (applyClause kind) o)
      = match (clauses.filterMap (clauseValue name)).getLast? with
        | none => proj o
        | some w => g w := by
  induction clauses using List.reverseRecOn with
  | nil => rfl
  | append_singleton l s ih =>
    have ih2 := ih (fun o s w hs => hset o s w (by simp [hs]))
      (fun o s hs => hkeep o s (by simp [hs]))
    rw [List.foldl_append, List.foldl_cons, List.foldl_nil, List.filterMap_append,
      List.getLast?_append]
    cases hv : clauseValue name s with
    | none =>
      rw [hkeep _ s (by simp) hv, ih2]
      simp [List.filterMap, hv]
    | some w =>
      rw [hset _ s w (by simp) hv]
      simp [List.filterMap, hv]

theorem mapSet_filter_same (m : List (String × Int)) (k : String) (v : Int) :
    (mapSet m k v).filter (fun e => e.1 = k) = [(k, v)] := by
  unfold mapSet
  rw [List.filter_append, List.filter_filter]
  have : (m.filter (fun a => decide (a.1 = k) && decide (a.1 ≠ k))) = [] := by
    rw [List.filter_eq_nil_iff]
    intro a _
    by_cases h : a.1 = k <;> simp [h]
  rw [this]
  simp

theorem mapSet_filter_other (m : List (String × Int)) (k k2 : String) (v : Int)
    (h : k ≠ k2) :
    (mapSet m k v).filter (fun e => e.1 = k2) = m.filter (fun e => e.1 = k2) := by
  unfold mapSet
  rw [List.filter_append, List.filter_filter]
  have h1 : ([(k, v)] : List (String × Int)).filter (fun e => e.1 = k2) = [] := by
    simp [h]
  rw [h1, List.append_nil]
  apply List.filter_congr
  intro a _
  by_cases ha : a.1 = k2
  · have : a.1 ≠ k := fun e => h (e ▸ ha)
    simp [ha, h.symm]
  · simp [ha]

theorem clauseValue_some (name s w : String) (h : clauseValue name s = some w) :
    ∃ o w0, Split s ':' = [o, w0] ∧ Trim o = name ∧ Trim w0 = w := by
  unfold clauseValue at h
  split at h
  · rename_i o w0 hs
    by_cases hn : Trim o = name
    · simp only [hn, if_true, Option.some.injEq] at h
      exact ⟨o, w0, hs, hn, h⟩
    · simp [hn] at h
  · simp at h

theorem clauseValue_none (kind : Kind) (name s : String)
    (hm : clauseMalformed kind s = false) (h : clauseValue name s = none) :
    ∃ o w0, Split s ':' = [o, w0] ∧ Trim o ≠ name ∧ rejected kind (Trim o) (Trim w0) = false := by
  unfold clauseMalformed at hm
  unfold clauseValue at h
  split at hm
  · rename_i o w0 hs
    rw [hs] at h
    by_cases hn : Trim o = name
    · simp [hn] at h
    · exact ⟨o, w0, hs, hn, hm⟩
  · simp at hm

theorem clauseMalformed_false (kind : Kind) (s o w0 : String)
    (hm : clauseMalformed kind s = false) (hs : Split s ':' = [o, w0]) :
    rejected kind (Trim o) (Trim w0) = false := by
  unfold clauseMalformed at hm
  rw [hs] at hm
  exact hm

theorem applyClause_of_split (kind : Kind) (o : Options) (s n w : String)
    (hs : Split s ':' = [n, w]) :
    applyClause kind o s = (setOption o kind (Trim n) (Trim w)).1 := by
  unfold applyClause
  rw [hs]

theorem applyClause_Numeric_set (kind : Kind) (o : Options) (name s w : String)
    (hname : name = "min" ∨ name = "max" ∨ name = "len")
    (hm : clauseMalformed kind s = false) (hv : clauseValue name s = some w) :
    (applyClause kind o s).Numeric.filter (fun e => e.1 = name)
      = [(name, (Atoi w).getD 0)] := by
  obtain ⟨n, w0, hs, hn, hw⟩ := clauseValue_some name s w hv
  have hr := clauseMalformed_false kind s n w0 hm hs
  rw [applyClause_of_split kind o s n w0 hs, setOption_fst _ _ _ _ hr, hn, hw, if_pos hname]
  exact mapSet_filter_same _ _ _

theorem applyClause_Numeric_keep (kind : Kind) (o : Options) (name s : String)
    (hm : clauseMalformed kind s = false) (hv : clauseValue name s = none) :
    (applyClause kind o s).Numeric.filter (fun e => e.1 = name)
      = o.Numeric.filter (fun e => e.1 = name) := by
  obtain ⟨n, w0, hs, hn, hr⟩ := clauseValue_none kind name s hm hv
  rw [applyClause_of_split kind o s n w0 hs, setOption_fst _ _ _ _ hr]
  by_cases h1 : Trim n = "min" ∨ Trim n = "max" ∨ Trim n = "len"
  · rw [if_pos h1]
    exact mapSet_filter_other _ _ _ _ hn
  · rw [if_neg h1]
    by_cases h2 : Trim n = "in"
    · rw [if_pos h2]
    · rw [if_neg h2]

theorem applyClause_In_set (kind : Kind) (o : Options) (s w : String)
    (hm : clauseMalformed kind s = false) (hv : clauseValue "in" s = some w) :
    (applyClause kind o s).InStr = some (Split w ',')
      ∧ (applyClause kind o s).InInt
          = if kind = .Int then some ((Split w ',').map (fun item => (Atoi item).getD 0))
            else o.InInt := by
  obtain ⟨n, w0, hs, hn, hw⟩ := clauseValue_some "in" s w hv
  have hr := clauseMalformed_false kind s n w0 hm hs
  rw [applyClause_of_split kind o s n w0 hs, setOption_fst _ _ _ _ hr, hn, hw,
    if_neg (by decide), if_pos rfl]
  exact ⟨rfl, rfl⟩

theorem applyClause_In_keep (kind : Kind) (o : Options) (s : String)
    (hm : clauseMalformed kind s = false) (hv : clauseValue "in" s = none) :
    (applyClause kind o s).InStr = o.InStr ∧ (applyClause kind o s).InInt = o.InInt := by
  obtain ⟨n, w0, hs, hn, hr⟩ := clauseValue_none kind "in" s hm hv
  rw [applyClause_of_split kind o s n w0 hs, setOption_fst _ _ _ _ hr]
  by_cases h1 : Trim n = "min" ∨ Trim n = "max" ∨ Trim n = "len"
  · rw [if_pos h1]
    exact ⟨rfl, rfl⟩
  · rw [if_neg h1, if_neg hn]
    exact ⟨rfl, rfl⟩

theorem parseOptions_ok (kind : Kind) (tag : String) (opts : Options)
    (h : parseOptions kind tag = (opts, none)) :
    (∀ s ∈ Split tag ';', clauseMalformed kind s = false)
      ∧ opts = (Split tag ';').foldl (applyClause kind) {} := by
  have h2 := parseOptions_snd kind tag
  rw [h] at h2
  have hany : (Split tag ';').any (clauseMalformed kind) = false := by
    by_cases hc : (Split tag ';').any (clauseMalformed kind) = true
    · rw [if_pos hc] at h2; simp at h2
    · simpa using hc
  have h3 := parseOptions_fst kind tag hany
  rw [h] at h3
  refine ⟨fun s hs => ?_, congrArg Prod.fst h3⟩
  by_cases hc : clauseMalformed kind s = true
  · have : (Split tag ';').any (clauseMalformed kind) = true :=
      List.any_eq_true.2 ⟨s, hs, hc⟩
    rw [hany] at this; simp at this
  · simpa using hc

theorem lastClauseValue_mem (name tag w : String) (h : lastClauseValue name tag = some w) :
    ∃ s ∈ Split tag ';', clauseValue name s = some w := by
  unfold lastClauseValue at h
  have hmem := List.mem_of_getLast?_eq_some h
  rw [List.mem_filterMap] at hmem
  exact hmem

/-- C16: when a tag parses, the map `Numeric` holds, for each of the names `min`,
`max` and `len`, exactly one entry if the tag has clauses of that name, whose
threshold is the integer of the last of these clauses (the earlier ones are
overwritten), and no entry otherwise. -/
theorem parseOptions_last_numeric_clause_wins (kind : Kind) (tag : String) (opts : Options)
    (name : String) (hparse : parseOptions kind tag = (opts, none))
    (hname : name = "min" ∨ name = "max" ∨ name = "len") :
    (∀ w : String, lastClauseValue name tag = some w →
      ∃ n : Int, Atoi w = some n
        ∧ opts.Numeric.filter (fun e => e.1 = name) = [(name, n)])
      ∧ (lastClauseValue name tag = none →
          opts.Numeric.filter (fun e => e.1 = name) = []) := by
  obtain ⟨hm, hopts⟩ := parseOptions_ok kind tag opts hparse
  have hlast := foldl_applyClause_last
    (fun o : Options => o.Numeric.filter (fun e => e.1 = name))
    (fun w => [(name, (Atoi w).getD 0)]) kind name (Split tag ';')
    (fun o s w hs hv => applyClause_Numeric_set kind o name s w hname (hm s hs) hv)
    (fun o s hs hv => applyClause_Numeric_keep kind o name s (hm s hs) hv) {}
  simp only [← hopts] at hlast
  refine ⟨fun w hw => ?_, fun hnone => ?_⟩
  · obtain ⟨s, hs, hv⟩ := lastClauseValue_mem name tag w hw
    obtain ⟨n, w0, hsp, hn, hw0⟩ := clauseValue_some name s w hv
    have hr := clauseMalformed_false kind s n w0 (hm s hs) hsp
    rw [hn, hw0] at hr
    have hint : isInteger w = true := by
      unfold rejected at hr
      simp only [Bool.or_eq_false_iff, Bool.and_eq_false_iff] at hr
      rcases hr.1.2 with h | h
      · simp [hname] at h
      · simpa using h
    unfold isInteger at hint
    obtain ⟨m, hm2⟩ := Option.isSome_iff_exists.1 hint
    refine ⟨m, hm2, ?_⟩
    unfold lastClauseValue at hw
    rw [hlast, hw]
    simp only [hm2, Option.getD_some]
  · unfold lastClauseValue at hnone
    rw [hlast, hnone]
    rfl

/-- C16, witness: the tag `min:1; min:5` gives the single entry `min` = 5, and the
value 3 gets the one violation of the threshold 5. -/
theorem parseOptions_last_numeric_clause_wins_witness :
    (∃ n : Int, Atoi "5" = some n
        ∧ ({ Numeric := [("min", 5)] } : Options).Numeric.filter (fun e => e.1 = "min")
          = [("min", n)])
      ∧ Validate [] (some (.struct [(⟨"Min", "", .prim .Int, "min:1; min:5"⟩, .int 3)]))
        = some (.errs [⟨.Errorf
            "field \x27Min\x27 of type int is not valid: has constraint (\x27min\x27: 5), but got value = 3"⟩]) :=
  ⟨(parseOptions_last_numeric_clause_wins .Int "min:1; min:5" { Numeric := [("min", 5)] } "min"
      (by decide) (Or.inl rfl)).1 "5" (by decide), by decide⟩

theorem Join_singleton (x sep : String) : Join [x] sep = x := by
  simp [Join, String.intercalate, String.intercalate.go]

theorem Join_cons_cons (x y sep : String) (l : List String) :
    Join (x :: y :: l) sep = x ++ sep ++ Join (y :: l) sep := by
  simp only [Join, String.intercalate, String.intercalate.go]
  rw [String.append_assoc, intercalate_go_append, String.append_assoc, intercalate_go_append]

theorem Join_splitChars (sep : Char) (cs : List Char) :
    Join ((splitChars sep cs).map String.mk) (String.mk [sep]) = String.mk cs := by
  induction cs with
  | nil => rfl
  | cons c cs ih =>
    cases hs : splitChars sep cs with
    | nil => exact absurd hs (splitChars_ne_nil sep cs)
    | cons p ps =>
      rw [hs] at ih
      by_cases hc : c = sep
      · simp only [splitChars, hc, if_true, hs, List.map_cons]
        rw [Join_cons_cons, ← List.map_cons, ih]
        rfl
      · simp only [splitChars, hc, if_false, hs, List.map_cons]
        cases ps with
        | nil =>
          simp only [List.map_cons, List.map_nil, Join_singleton] at ih ⊢
          have hp : p = cs := congrArg String.data ih
          rw [hp]
        | cons q qs =>
          simp only [List.map_cons] at ih ⊢
          rw [Join_cons_cons] at ih ⊢
          have h1 : String.mk (c :: p) = String.mk [c] ++ String.mk p := rfl
          have h2 : String.mk (c :: cs) = String.mk [c] ++ String.mk cs := rfl
          rw [h1, h2, ← ih, String.append_assoc, String.append_assoc, String.append_assoc]

theorem Join_Split_comma (s : String) : Join (Split s ',') "," = s :=
  Join_splitChars ',' s.data

theorem Split_ne_nil (s : String) (sep : Char) : Split s sep ≠ [] := by
  unfold Split
  intro h
  exact splitChars_ne_nil sep s.data (List.map_eq_nil_iff.1 h)

theorem parseOptions_In_last (kind : Kind) (tag : String) (opts : Options)
    (hparse : parseOptions kind tag = (opts, none)) :
    opts.InStr = (lastClauseValue "in" tag).map (fun w => Split w ',')
      ∧ (kind = .Int → opts.InInt = (lastClauseValue "in" tag).map
          (fun w => (Split w ',').map (fun item => (Atoi item).getD 0)))
      ∧ (kind = .Int → ∀ w : String, lastClauseValue "in" tag = some w →
          ∀ item ∈ Split w ',', isInteger item = true) := by
  obtain ⟨hm, hopts⟩ := parseOptions_ok kind tag opts hparse
  have h1 := foldl_applyClause_last (fun o : Options => o.InStr)
    (fun w => some (Split w ',')) kind "in" (Split tag ';')
    (fun o s w hs hv => (applyClause_In_set kind o s w (hm s hs) hv).1)
    (fun o s hs hv => (applyClause_In_keep kind o s (hm s hs) hv).1) {}
  simp only [← hopts] at h1
  refine ⟨?_, fun hk => ?_, fun hk w hw item hitem => ?_⟩
  · rw [h1]
    unfold lastClauseValue
    cases (List.filterMap (clauseValue "in") (Split tag ';')).getLast? <;> rfl
  · have h2 := foldl_applyClause_last (fun o : Options => o.InInt)
      (fun w => some ((Split w ',').map (fun item => (Atoi item).getD 0))) kind "in"
      (Split tag ';')
      (fun o s w hs hv => by
        have := (applyClause_In_set kind o s w (hm s hs) hv).2
        rw [if_pos hk] at this
        exact this)
      (fun o s hs hv => (applyClause_In_keep kind o s (hm s hs) hv).2) {}
    simp only [← hopts] at h2
    rw [h2]
    unfold lastClauseValue
    cases (List.filterMap (clauseValue "in") (Split tag ';')).getLast? <;> rfl
  · obtain ⟨s, hs, hv⟩ := lastClauseValue_mem "in" tag w hw
    obtain ⟨n, w0, hsp, hn, hw0⟩ := clauseValue_some "in" s w hv
    have hr := clauseMalformed_false kind s n w0 (hm s hs) hsp
    rw [hn, hw0] at hr
    unfold rejected at hr
    simp only [Bool.or_eq_false_iff, Bool.and_eq_false_iff, decide_eq_false_iff_not] at hr
    rcases hr.2 with (h | h) | h
    · exact absurd trivial h
    · exact absurd hk h
    · by_cases hi : isInteger item = true
      · exact hi
      · have : (Split w ',').any (fun item => !isInteger item) = true :=
          List.any_eq_true.2 ⟨item, hitem, by simpa using hi⟩
        rw [h] at this
        simp at this

/-- C13: for the kind `int`, when a tag with an `in` clause parses, `InStr` is
non-empty and `InInt` has the same length and holds, place by place, the integer
that the item of `InStr` denotes; a tag with an `in` clause one item of which is
not an integer fails with `ErrInvalidValidatorSyntax`.  For the kind `string` the
items need not be integers and `InInt` stays nil. -/
theorem parseOptions_InInt_mirrors_InStr :
    (∀ (tag : String) (opts : Options),
      parseOptions .Int tag = (opts, none) → hasInClause tag = true →
      ∃ (strs : List String) (ints : List Int),
        opts.InStr = some strs ∧ opts.InInt = some ints ∧ strs ≠ []
          ∧ ints.length = strs.length
          ∧ List.Forall₂ (fun s n => Atoi s = some n) strs ints)
      ∧ (∀ (tag s o w item : String),
          s ∈ Split tag ';' → Split s ':' = [o, w] → Trim o = "in" →
          item ∈ Split (Trim w) ',' → Atoi item = none →
          parseOptions .Int tag = ({}, some .ErrInvalidValidatorSyntax))
      ∧ (∀ (tag : String) (opts : Options),
          parseOptions .String tag = (opts, none) → opts.InInt = none)
      ∧ parseOptions .String "in:foo,bar" = ({ InStr := some ["foo", "bar"] }, none) := by
  refine ⟨?_, ?_, ?_, by decide⟩
  · intro tag opts hparse hin
    obtain ⟨h1, h2, h3⟩ := parseOptions_In_last .Int tag opts hparse
    have hsome : opts.InStr.isSome = true := by
      rw [(parseOptions_in .Int tag opts hparse).1]; exact hin
    cases hl : lastClauseValue "in" tag with
    | none => rw [h1, hl] at hsome; simp at hsome
    | some w =>
      refine ⟨Split w ',', (Split w ',').map (fun item => (Atoi item).getD 0), ?_, ?_,
        Split_ne_nil w ',', by simp, ?_⟩
      · rw [h1, hl]; rfl
      · rw [h2 rfl, hl]; rfl
      · rw [List.forall₂_map_right_iff, List.forall₂_same]
        intro item hitem
        have hi := h3 rfl w hl item hitem
        unfold isInteger at hi
        obtain ⟨m, hm⟩ := Option.isSome_iff_exists.1 hi
        simp [hm]
  · intro tag s o w item hs hsp hn hitem hatoi
    apply parseOptions_error
    rw [parseOptions_snd]
    have hmal : clauseMalformed .Int s = true := by
      unfold clauseMalformed
      rw [hsp]
      unfold rejected
      have : (Split (Trim w) ',').any (fun item => !isInteger item) = true :=
        List.any_eq_true.2 ⟨item, hitem, by simp [isInteger, hatoi]⟩
      simp [hn, this]
    rw [if_pos (List.any_eq_true.2 ⟨s, hs, hmal⟩)]
    simp
  · intro tag opts hparse
    exact (parseOptions_in .String tag opts hparse).2.2 (by decide)

/-- C13, witness: the tag `in:-1,-3,5,7` on an integer field, and the tag `in:5-`,
whose item is not an integer. -/
theorem parseOptions_InInt_mirrors_InStr_witness :
    (∃ (strs : List String) (ints : List Int),
        ({ InStr := some ["-1", "-3", "5", "7"], InInt := some [-1, -3, 5, 7] } : Options).InStr
            = some strs
          ∧ ({ InStr := some ["-1", "-3", "5", "7"], InInt := some [-1, -3, 5, 7] } : Options).InInt
            = some ints
          ∧ strs ≠ [] ∧ ints.length = strs.length
          ∧ List.Forall₂ (fun s n => Atoi s = some n) strs ints)
      ∧ parseOptions .Int "in:5-" = ({}, some .ErrInvalidValidatorSyntax) :=
  ⟨parseOptions_InInt_mirrors_InStr.1 "in:-1,-3,5,7"
      { InStr := some ["-1", "-3", "5", "7"], InInt := some [-1, -3, 5, 7] }
      (by decide) (by decide),
    parseOptions_InInt_mirrors_InStr.2.1 "in:5-" "in:5-" "in" "5-" "5-"
      (by decide) (by decide) (by decide) (by decide) (by decide)⟩

/-- C19: when a tag with an `in` clause parses, for whatever kind, the items of
`InStr` joined with `,`, which is the allowed set shown in a membership violation,
are character for character the trimmed value `w` of the last `in` clause; for an
integer field too the text is kept as written. -/
theorem allowed_set_rendered_as_written (kind : Kind) (tag : String) (opts : Options)
    (w : String) (hparse : parseOptions kind tag = (opts, none))
    (hlast : lastClauseValue "in" tag = some w) :
    Join (opts.InStr.getD []) "," = w
      ∧ ∀ (sf : StructField) (shown : String),
          inViolation sf opts shown
            = ⟨.Errorf (ErrFieldNotValid sf.Name (kindName sf.Typ.Kind) "in" w shown)⟩ := by
  have h1 := (parseOptions_In_last kind tag opts hparse).1
  rw [hlast] at h1
  have hj : Join (opts.InStr.getD []) "," = w := by
    rw [h1]
    exact Join_Split_comma w
  exact ⟨hj, fun sf shown => by unfold inViolation; rw [hj]⟩

/-- C19, witness: the clause `in:05,7` on an integer field is shown as `05,7`. -/
theorem allowed_set_rendered_as_written_witness :
    Join (({ InStr := some ["05", "7"], InInt := some [5, 7] } : Options).InStr.getD []) ","
        = "05,7"
      ∧ Validate [] (some (.struct [(⟨"A", "", .prim .Int, "in:05,7"⟩, .int 8)]))
        = some (.errs [⟨.Errorf
            "field \x27A\x27 of type int is not valid: has constraint (\x27in\x27: 05,7), but got value = 8"⟩]) :=
  ⟨(allowed_set_rendered_as_written .Int "in:05,7"
      { InStr := some ["05", "7"], InInt := some [5, 7] } "05,7" (by decide) (by decide)).1,
    by decide⟩

/-- C20: the items of an `in` clause are the pieces between the commas of the
trimmed value `w` of the clause, as they are: no item is trimmed.  So for the kind
`string` the tag `in:foo, bar` allows `foo` and ` bar`, with its space, and
rejects `bar`; for the kind `int` the tag `in:1, 2` fails with
`ErrInvalidValidatorSyntax`. -/
theorem in_items_not_trimmed (kind : Kind) (tag : String) (opts : Options) (w : String)
    (hparse : parseOptions kind tag = (opts, none))
    (hlast : lastClauseValue "in" tag = some w) :
    opts.InStr = some (Split w ',')
      ∧ parseOptions .String "in:foo, bar" = ({ InStr := some ["foo", " bar"] }, none)
      ∧ (∀ (v : Validator) (sf : StructField),
          validateIn v (.str "foo") sf { InStr := some ["foo", " bar"] } = v
            ∧ validateIn v (.str " bar") sf { InStr := some ["foo", " bar"] } = v
            ∧ validateIn v (.str "bar") sf { InStr := some ["foo", " bar"] }
              = { v with Errors := v.Errors
                    ++ [inViolation sf { InStr := some ["foo", " bar"] } "bar"] })
      ∧ parseOptions .Int "in:1, 2" = ({}, some .ErrInvalidValidatorSyntax) := by
  have h1 := (parseOptions_In_last kind tag opts hparse).1
  rw [hlast] at h1
  refine ⟨h1, by decide, fun v sf => ⟨?_, ?_, ?_⟩, by decide⟩
  · simp [validateIn, Value.Kind, Value.String, contains]
  · simp [validateIn, Value.Kind, Value.String, contains]
  · have hc : contains ["foo", " bar"] "bar" = false := by decide
    simp [validateIn, Value.Kind, Value.String, hc, inViolation, In]

/-- C20, witness: the tag `in:foo, bar` on a string field. -/
theorem in_items_not_trimmed_witness :
    ({ InStr := some ["foo", " bar"] } : Options).InStr = some (Split "foo, bar" ',') :=
  (in_items_not_trimmed .String "in:foo, bar" { InStr := some ["foo", " bar"] } "foo, bar"
    (by decide) (by decide)).1

theorem dropWhile_space_replicate_append (a : Nat) (l : List Char) :
    (List.replicate a ' ' ++ l).dropWhile (fun c => decide (c = ' '))
      = l.dropWhile (fun c => decide (c = ' ')) := by
  induction a with
  | zero => simp
  | succ k ih => simp [List.replicate_succ, List.dropWhile_cons, ih]

theorem trimChars_pad (a b : Nat) (l : List Char) :
    trimChars (List.replicate a ' ' ++ l ++ List.replicate b ' ') = trimChars l := by
  unfold trimChars
  rw [List.append_assoc, dropWhile_space_replicate_append, List.dropWhile_append]
  by_cases h : (l.dropWhile (fun c => decide (c = ' '))).isEmpty = true
  · rw [if_pos h]
    have h1 := dropWhile_space_replicate_append b []
    simp only [List.append_nil, List.dropWhile_nil] at h1
    rw [h1, List.isEmpty_iff.1 h]
  · rw [if_neg h, List.reverse_append, List.reverse_replicate,
      dropWhile_space_replicate_append]

theorem Trim_pad (a b : Nat) (x : String) : Trim (pad a x b) = Trim x := by
  unfold Trim pad
  rw [trimChars_pad]

theorem Split_padded_clause (a b c d : Nat) (o w : String)
    (ho : ':' ∉ o.data) (hw : ':' ∉ w.data) :
    Split (pad a o b ++ ":" ++ pad c w d) ':' = [pad a o b, pad c w d] := by
  have h1 : ':' ∉ (pad a o b).data := by
    simp only [pad, List.mem_append, List.mem_replicate, not_or]
    exact ⟨⟨fun h => absurd h.2 (by decide), ho⟩, fun h => absurd h.2 (by decide)⟩
  have h2 : ':' ∉ (pad c w d).data := by
    simp only [pad, List.mem_append, List.mem_replicate, not_or]
    exact ⟨⟨fun h => absurd h.2 (by decide), hw⟩, fun h => absurd h.2 (by decide)⟩
  have h3 : (pad a o b ++ ":" ++ pad c w d).data
      = (pad a o b).data ++ ':' :: (pad c w d).data := by
    simp [String.data_append]
  unfold Split
  rw [h3, splitChars_append_sep _ _ _ h1, splitChars_of_not_mem _ _ h2]
  rfl

theorem pad_zero (x : String) : pad 0 x 0 = x := by
  simp [pad]

/-- C14 (amended): the name and the value of a clause are stripped of the space
characters around them, and of nothing else, before routing: a clause read with
any number of spaces around its name and around its value is read as the clause
without them, so `min: 10` parses to the entry `min` = 10 as `min:10` does; a tab
is not stripped, and `min:<tab>10` is rejected. -/
theorem spaces_around_name_and_value_stripped (kind : Kind) (o w : String)
    (ho : ':' ∉ o.data) (hw : ':' ∉ w.data) :
    (∀ (x : String) (a b : Nat), Trim (pad a x b) = Trim x)
      ∧ (∀ (opts : Options) (ss : List String) (a b c d : Nat),
          parseOptionsLoop kind opts ((pad a o b ++ ":" ++ pad c w d) :: ss)
            = parseOptionsLoop kind opts ((o ++ ":" ++ w) :: ss))
      ∧ (∀ a b c d : Nat, ';' ∉ o.data → ';' ∉ w.data →
          parseOptions kind (pad a o b ++ ":" ++ pad c w d) = parseOptions kind (o ++ ":" ++ w))
      ∧ parseOptions kind "min: 10" = parseOptions kind "min:10"
      ∧ parseOptions kind "min:10" = ({ Numeric := [("min", 10)] }, none)
      ∧ parseOptions kind "min:\t10" = ({}, some .ErrInvalidValidatorSyntax) := by
  have hloop : ∀ (opts : Options) (ss : List String) (a b c d : Nat),
      parseOptionsLoop kind opts ((pad a o b ++ ":" ++ pad c w d) :: ss)
        = parseOptionsLoop kind opts ((o ++ ":" ++ w) :: ss) := by
    intro opts ss a b c d
    have h1 := Split_padded_clause a b c d o w ho hw
    have h2 := Split_padded_clause 0 0 0 0 o w ho hw
    simp only [pad_zero] at h2
    unfold parseOptionsLoop
    rw [h1, h2]
    simp only [Trim_pad]
  have hnum : parseOptions kind "min:10" = ({ Numeric := [("min", 10)] }, none) := by
    cases kind <;> decide
  have htab : parseOptions kind "min:\t10" = ({}, some .ErrInvalidValidatorSyntax) := by
    cases kind <;> decide
  have hsp : parseOptions kind "min: 10" = parseOptions kind "min:10" := by
    cases kind <;> decide
  refine ⟨fun x a b => Trim_pad a b x, hloop, ?_, hsp, hnum, htab⟩
  intro a b c d hso hsw
  have hsemi : ∀ (a b : Nat) (x : String), ';' ∉ x.data → ';' ∉ (pad a x b).data := by
    intro a b x hx
    simp only [pad, List.mem_append, List.mem_replicate, not_or]
    exact ⟨⟨fun h => absurd h.2 (by decide), hx⟩, fun h => absurd h.2 (by decide)⟩
  have hs1 : Split (pad a o b ++ ":" ++ pad c w d) ';' = [pad a o b ++ ":" ++ pad c w d] := by
    unfold Split
    rw [splitChars_of_not_mem]
    · rfl
    · simp [String.data_append, hsemi a b o hso, hsemi c d w hsw]
  have hs2 : Split (o ++ ":" ++ w) ';' = [o ++ ":" ++ w] := by
    unfold Split
    rw [splitChars_of_not_mem]
    · rfl
    · simp [String.data_append, hso, hsw]
  unfold parseOptions
  rw [hs1, hs2]
  exact hloop {} [] a b c d

/-- C14, witness: the clause `max: 15` read with spaces and without them. -/
theorem spaces_around_name_and_value_stripped_witness :
    parseOptions .Int (pad 1 "max" 0 ++ ":" ++ pad 2 "15" 1) = parseOptions .Int ("max" ++ ":" ++ "15") :=
  (spaces_around_name_and_value_stripped .Int "max" "15" (by decide) (by decide)).2.2.1
    1 0 2 1 (by decide) (by decide)

theorem digitVal_eq_some (c : Char) (d : Nat) (h : digitVal c = some d) :
    '0' ≤ c ∧ c ≤ '9' := by
  unfold digitVal at h
  by_cases hc : '0' ≤ c ∧ c ≤ '9'
  · exact hc
  · simp [hc] at h

theorem foldlM_digits_some (ds : List Char) (acc r : Nat)
    (h : ds.foldlM (fun acc c => (digitVal c).map (fun d => 10 * acc + d)) acc = some r) :
    ∀ c ∈ ds, '0' ≤ c ∧ c ≤ '9' := by
  induction ds generalizing acc with
  | nil => simp
  | cons c cs ih =>
    simp only [List.foldlM_cons, Option.bind_eq_bind] at h
    cases hd : digitVal c with
    | none => simp [hd] at h
    | some d =>
      simp only [hd, Option.map_some', Option.some_bind] at h
      intro x hx
      rcases List.mem_cons.1 hx with rfl | hx
      · exact digitVal_eq_some _ d hd
      · exact ih _ h x hx

theorem parseDigits_eq_some (cs : List Char) (m : Nat) (h : parseDigits cs = some m) :
    IsDigits cs ∧ m = digitsValue cs := by
  have hd : IsDigits cs := by
    unfold parseDigits at h
    by_cases hn : cs = []
    · simp [hn] at h
    · rw [if_neg hn] at h
      exact ⟨hn, foldlM_digits_some cs 0 m h⟩
  rw [parseDigits_of_digits cs hd] at h
  exact ⟨hd, (Option.some.inj h).symm⟩

theorem Atoi_minus (cs : List Char) :
    Atoi (String.mk ('-' :: cs))
      = (parseDigits cs).bind (fun m => if m ≤ 2 ^ 63 then some (-(m : Int)) else none) := by
  simp [Atoi, intSize]

theorem Atoi_plus (cs : List Char) :
    Atoi (String.mk ('+' :: cs))
      = (parseDigits cs).bind (fun m => if m < 2 ^ 63 then some (m : Int) else none) := by
  simp [Atoi, intSize]

theorem Atoi_unsigned (cs : List Char) (h1 : cs.head? ≠ some '-') (h2 : cs.head? ≠ some '+') :
    Atoi (String.mk cs)
      = (parseDigits cs).bind (fun m => if m < 2 ^ 63 then some (m : Int) else none) := by
  simp [Atoi, intSize, h1, h2]

theorem parseDigits_bind_lt (cs : List Char) (n : Int) :
    (parseDigits cs).bind (fun m => if m < 2 ^ 63 then some (m : Int) else none) = some n
      ↔ IsDigits cs ∧ n = (digitsValue cs : Int) ∧ digitsValue cs < 2 ^ 63 := by
  constructor
  · intro h
    cases hp : parseDigits cs with
    | none => simp [hp] at h
    | some m =>
      obtain ⟨hd, hm⟩ := parseDigits_eq_some _ _ hp
      rw [hp, Option.some_bind] at h
      by_cases hr : m < 2 ^ 63
      · rw [if_pos hr] at h
        exact ⟨hd, hm ▸ (Option.some.inj h).symm, hm ▸ hr⟩
      · rw [if_neg hr] at h
        exact absurd h (by simp)
  · rintro ⟨hd, hn, hr⟩
    rw [parseDigits_of_digits cs hd, Option.some_bind, if_pos hr, hn]

theorem parseDigits_bind_le (cs : List Char) (n : Int) :
    (parseDigits cs).bind (fun m => if m ≤ 2 ^ 63 then some (-(m : Int)) else none) = some n
      ↔ IsDigits cs ∧ n = -(digitsValue cs : Int) ∧ digitsValue cs ≤ 2 ^ 63 := by
  constructor
  · intro h
    cases hp : parseDigits cs with
    | none => simp [hp] at h
    | some m =>
      obtain ⟨hd, hm⟩ := parseDigits_eq_some _ _ hp
      rw [hp, Option.some_bind] at h
      by_cases hr : m ≤ 2 ^ 63
      · rw [if_pos hr] at h
        exact ⟨hd, hm ▸ (Option.some.inj h).symm, hm ▸ hr⟩
      · rw [if_neg hr] at h
        exact absurd h (by simp)
  · rintro ⟨hd, hn, hr⟩
    rw [parseDigits_of_digits cs hd, Option.some_bind, if_pos hr, hn]

theorem Atoi_eq_some_iff (s : String) (n : Int) :
    Atoi s = some n
      ↔ IsSignedDecimal s n ∧ -(2 : Int) ^ 63 ≤ n ∧ n < (2 : Int) ^ 63 := by
  obtain ⟨cs⟩ := s
  constructor
  · intro h
    by_cases h1 : cs.head? = some '-'
    · obtain ⟨t, rfl⟩ : ∃ t, cs = '-' :: t := by
        cases cs with
        | nil => simp at h1
        | cons c t => simp only [List.head?_cons, Option.some.injEq] at h1; exact ⟨t, by rw [h1]⟩
      rw [Atoi_minus, parseDigits_bind_le] at h
      obtain ⟨hd, hn, hr⟩ := h
      refine ⟨⟨['-'], t, Or.inr (Or.inr rfl), hd, rfl, by rw [if_pos rfl]; exact hn⟩, ?_, ?_⟩
      · rw [hn]; push_cast; omega
      · rw [hn]; push_cast; omega
    · by_cases h2 : cs.head? = some '+'
      · obtain ⟨t, rfl⟩ : ∃ t, cs = '+' :: t := by
          cases cs with
          | nil => simp at h2
          | cons c t =>
            simp only [List.head?_cons, Option.some.injEq] at h2; exact ⟨t, by rw [h2]⟩
        rw [Atoi_plus, parseDigits_bind_lt] at h
        obtain ⟨hd, hn, hr⟩ := h
        refine ⟨⟨['+'], t, Or.inr (Or.inl rfl), hd, rfl,
          by rw [if_neg (by decide)]; exact hn⟩, ?_, ?_⟩
        · rw [hn]; push_cast; omega
        · rw [hn]; push_cast; omega
      · rw [Atoi_unsigned cs h1 h2, parseDigits_bind_lt] at h
        obtain ⟨hd, hn, hr⟩ := h
        refine ⟨⟨[], cs, Or.inl rfl, hd, rfl, by rw [if_neg (by decide)]; exact hn⟩, ?_, ?_⟩
        · rw [hn]; push_cast; omega
        · rw [hn]; push_cast; omega
  · rintro ⟨⟨sign, ds, hsign, hd, hdata, hn⟩, hlo, hhi⟩
    simp only at hdata
    subst hdata
    rcases hsign with rfl | rfl | rfl
    · rw [if_neg (by decide)] at hn
      obtain ⟨c, t, rfl⟩ : ∃ c t, ds = c :: t := by
        cases ds with
        | nil => exact absurd rfl hd.1
        | cons c t => exact ⟨c, t, rfl⟩
      have hc := digit_ne_sign c (hd.2 c (by simp))
      rw [List.nil_append, Atoi_unsigned _ (by simp [hc.1]) (by simp [hc.2.1]),
        parseDigits_bind_lt]
      refine ⟨hd, hn, ?_⟩
      rw [hn] at hhi; push_cast at hhi; omega
    · rw [if_neg (by decide)] at hn
      rw [List.singleton_append, Atoi_plus, parseDigits_bind_lt]
      refine ⟨hd, hn, ?_⟩
      rw [hn] at hhi; push_cast at hhi; omega
    · rw [if_pos rfl] at hn
      rw [List.singleton_append, Atoi_minus, parseDigits_bind_le]
      refine ⟨hd, hn, ?_⟩
      rw [hn] at hlo; push_cast at hlo; omega

theorem setOption_numeric (o : Options) (kind : Kind) (name val : String)
    (hname : name = "min" ∨ name = "max" ∨ name = "len") :
    setOption o kind name val
      = match Atoi val with
        | some n => ({ o with Numeric := mapSet o.Numeric name n }, none)
        | none => (o, some .ErrInvalidValidatorSyntax) := by
  unfold setOption
  by_cases h0 : len val = 0
  · have : val = "" := (len_eq_zero_iff val).1 h0
    subst this
    simp [h0]
    rfl
  · simp only [h0, if_false, contains_numeric, hname, decide_True, if_true, getNumericOption]
    cases Atoi val <;> rfl

/-- C15 (amended): for a clause named `min`, `max` or `len`, the trimmed value is
accepted iff it is an integer of the range of `int` written in base 10 as an
optional sign `+` or `-` followed by one or more decimal digits; the entry of the
name in `Numeric` is then that integer.  Every other value, such as `5-`, `%12`,
`abcdef` or the empty text, fails with `ErrInvalidValidatorSyntax`. -/
theorem numeric_value_accepted_iff_signed_decimal_int (o : Options) (kind : Kind)
    (name val : String) (hname : name = "min" ∨ name = "max" ∨ name = "len") :
    (∀ n : Int, IsSignedDecimal val n → -(2 : Int) ^ 63 ≤ n → n < (2 : Int) ^ 63 →
        setOption o kind name val = ({ o with Numeric := mapSet o.Numeric name n }, none)
          ∧ (mapSet o.Numeric name n).filter (fun e => e.1 = name) = [(name, n)])
      ∧ ((¬ ∃ n : Int, IsSignedDecimal val n ∧ -(2 : Int) ^ 63 ≤ n ∧ n < (2 : Int) ^ 63) →
          setOption o kind name val = (o, some .ErrInvalidValidatorSyntax))
      ∧ setOption o kind name "5-" = (o, some .ErrInvalidValidatorSyntax)
      ∧ setOption o kind name "%12" = (o, some .ErrInvalidValidatorSyntax)
      ∧ setOption o kind name "abcdef" = (o, some .ErrInvalidValidatorSyntax)
      ∧ setOption o kind name "" = (o, some .ErrInvalidValidatorSyntax) := by
  have hbad : ∀ v : String, Atoi v = none →
      setOption o kind name v = (o, some .ErrInvalidValidatorSyntax) := by
    intro v hv
    rw [setOption_numeric o kind name v hname, hv]
  refine ⟨fun n hs hlo hhi => ⟨?_, mapSet_filter_same _ _ _⟩, fun hno => ?_,
    hbad _ (by decide), hbad _ (by decide), hbad _ (by decide), hbad _ (by decide)⟩
  · rw [setOption_numeric o kind name val hname, (Atoi_eq_some_iff val n).2 ⟨hs, hlo, hhi⟩]
  · apply hbad
    cases ha : Atoi val with
    | none => rfl
    | some n => exact absurd ⟨n, (Atoi_eq_some_iff val n).1 ha⟩ hno

/-- C15, witness: the values `-10` and `+5` of a clause `min`. -/
theorem numeric_value_accepted_iff_signed_decimal_int_witness :
    (setOption {} .Int "min" "-10"
        = ({ ({} : Options) with Numeric := mapSet ({} : Options).Numeric "min" (-10) }, none)
        ∧ (mapSet ({} : Options).Numeric "min" (-10)).filter (fun e => e.1 = "min")
          = [("min", -10)])
      ∧ (setOption {} .Int "min" "+5"
        = ({ ({} : Options) with Numeric := mapSet ({} : Options).Numeric "min" 5 }, none)
        ∧ (mapSet ({} : Options).Numeric "min" 5).filter (fun e => e.1 = "min")
          = [("min", 5)]) :=
  ⟨(numeric_value_accepted_iff_signed_decimal_int {} .Int "min" "-10" (Or.inl rfl)).1 (-10)
      ⟨['-'], ['1', '0'], Or.inr (Or.inr rfl), ⟨by decide, by decide⟩, rfl,
        by simp [digitsValue, Nat.ofDigits]⟩ (by decide) (by decide),
    (numeric_value_accepted_iff_signed_decimal_int {} .Int "min" "+5" (Or.inl rfl)).1 5
      ⟨['+'], ['5'], Or.inr (Or.inl rfl), ⟨by decide, by decide⟩, rfl,
        by simp [digitsValue, Nat.ofDigits]⟩ (by decide) (by decide)⟩

theorem Split_Join_semicolon (l : List String) (hne : l ≠ [])
    (h : ∀ c ∈ l, ';' ∉ c.data) : Split (Join l ";") ';' = l := by
  induction l with
  | nil => exact absurd rfl hne
  | cons x xs ih =>
    have hx : ';' ∉ x.data := h x (by simp)
    cases xs with
    | nil =>
      rw [Join_singleton]
      unfold Split
      rw [splitChars_of_not_mem _ _ hx]
      rfl
    | cons y ys =>
      have ih2 := ih (by simp) (fun c hc => h c (by simp [hc]))
      rw [Join_cons_cons]
      unfold Split at ih2 ⊢
      have hd : (x ++ ";" ++ Join (y :: ys) ";").data
          = x.data ++ ';' :: (Join (y :: ys) ";").data := by
        simp [String.data_append]
      rw [hd, splitChars_append_sep _ _ _ hx, List.map_cons, ih2]

theorem isUnknownClause_spec (kind : Kind) (s : String) (hs : isUnknownClause s = true) :
    clauseMalformed kind s = false ∧ ∀ o : Options, applyClause kind o s = o := by
  unfold isUnknownClause at hs
  split at hs
  · rename_i n w hsp
    simp only [decide_eq_true_eq] at hs
    obtain ⟨hw, h1, h2, h3, h4⟩ := hs
    have hr : rejected kind (Trim n) (Trim w) = false := by
      simp [rejected, hw, h1, h2, h3, h4]
    refine ⟨by unfold clauseMalformed; rw [hsp]; exact hr, fun o => ?_⟩
    rw [applyClause_of_split kind o s n w hsp, setOption_fst _ _ _ _ hr,
      if_neg (by simp [h1, h2, h3]), if_neg h4]
  · simp at hs

theorem parseOptionsLoop_unknown (kind : Kind) (pre post : List String) (s : String)
    (hs : isUnknownClause s = true) (o : Options) :
    parseOptionsLoop kind o (pre ++ s :: post) = parseOptionsLoop kind o (pre ++ post) := by
  obtain ⟨hm, hap⟩ := isUnknownClause_spec kind s hs
  rw [parseOptionsLoop_eq, parseOptionsLoop_eq]
  simp only [List.any_append, List.any_cons, hm, Bool.false_or, List.foldl_append,
    List.foldl_cons, hap]

theorem parseOptionsLoop_all_unknown (kind : Kind) (l : List String)
    (h : ∀ c ∈ l, isUnknownClause c = true) (o : Options) :
    parseOptionsLoop kind o l = (o, none) := by
  induction l with
  | nil => rfl
  | cons c cs ih =>
    have h1 := parseOptionsLoop_unknown kind [] cs c (h c (by simp)) o
    simp only [List.nil_append] at h1
    rw [h1, ih (fun d hd => h d (by simp [hd]))]

/-- C17: a well-formed clause whose trimmed name is none of `min`, `max`, `len`,
`in` is ignored.  The tag with the clause and the tag without it give the same
options, and the same error if any, when another clause is left; the clause alone
parses without error to the empty options.  A tag made only of such clauses
parses to the empty options, and a field with such a tag gets no violation for
any value. -/
theorem unknown_clause_ignored (kind : Kind) (pre post : List String) (s : String)
    (hs : isUnknownClause s = true) (hsemi : ∀ c ∈ pre ++ s :: post, ';' ∉ c.data) :
    (parseOptions kind (Join (pre ++ s :: post) ";")).1
        = (parseOptions kind (Join (pre ++ post) ";")).1
      ∧ (pre ++ post ≠ [] →
          parseOptions kind (Join (pre ++ s :: post) ";")
            = parseOptions kind (Join (pre ++ post) ";"))
      ∧ (pre ++ post = [] → parseOptions kind (Join (pre ++ s :: post) ";") = ({}, none))
      ∧ (∀ l : List String, l ≠ [] → (∀ c ∈ l, isUnknownClause c = true ∧ ';' ∉ c.data) →
          parseOptions kind (Join l ";") = ({}, none)
            ∧ ∀ (v : Validator) (sf : StructField) (val : Value),
                sf.Tag = Join l ";" → sf.IsExported = true → validatedKind sf = kind →
                (kind = .Int ∨ kind = .String) → (ValidateField v sf val).Errors = v.Errors) := by
  have hfull : parseOptions kind (Join (pre ++ s :: post) ";")
      = parseOptionsLoop kind {} (pre ++ post) := by
    unfold parseOptions
    rw [Split_Join_semicolon _ (by simp) hsemi, parseOptionsLoop_unknown kind pre post s hs]
  have hsemi2 : ∀ c ∈ pre ++ post, ';' ∉ c.data := by
    intro c hc
    apply hsemi c
    rcases List.mem_append.1 hc with h | h
    · simp [h]
    · simp [h]
  have hne : pre ++ post ≠ [] →
      parseOptions kind (Join (pre ++ s :: post) ";")
        = parseOptions kind (Join (pre ++ post) ";") := by
    intro hne
    rw [hfull]
    unfold parseOptions
    rw [Split_Join_semicolon _ hne hsemi2]
  have hnil : pre ++ post = [] →
      parseOptions kind (Join (pre ++ s :: post) ";") = ({}, none) := by
    intro hnil
    rw [hfull, hnil]
    rfl
  refine ⟨?_, hne, hnil, ?_⟩
  · by_cases h : pre ++ post = []
    · rw [hnil h, h]
      cases kind <;> rfl
    · rw [hne h]
  · intro l hl hall
    have hp : parseOptions kind (Join l ";") = ({}, none) := by
      unfold parseOptions
      rw [Split_Join_semicolon l hl (fun c hc => (hall c hc).2),
        parseOptionsLoop_all_unknown kind l (fun c hc => (hall c hc).1)]
    refine ⟨hp, fun v sf val htag hexp hk hkind => ?_⟩
    by_cases hempty : sf.Tag = ""
    · simp [ValidateField, hempty]
    · rw [ValidateField_eq_foldl v sf val hempty hexp, hk, htag,
        getFieldOptions_of_parse v kind _ {} hkind hp, foldl_validateValue_no_options_eq]

/-- C17, witness: the clause `foo:bar` after `min:5`, and alone. -/
theorem unknown_clause_ignored_witness :
    parseOptions .Int (Join (["min:5"] ++ "foo:bar" :: []) ";")
        = parseOptions .Int (Join (["min:5"] ++ []) ";")
      ∧ parseOptions .Int (Join ([] ++ "foo:bar" :: []) ";") = ({}, none) :=
  ⟨(unknown_clause_ignored .Int ["min:5"] [] "foo:bar" (by decide) (by decide)).2.1 (by decide),
    (unknown_clause_ignored .Int [] [] "foo:bar" (by decide) (by decide)).2.2.1 rfl⟩

theorem forall₂_perm_of_common {α β : Type} (g : β → List α) (p1 p2 : List (List α))
    (xs : List β) (h1 : List.Forall₂ (fun part x => part.Perm (g x)) p1 xs)
    (h2 : List.Forall₂ (fun part x => part.Perm (g x)) p2 xs) :
    List.Forall₂ List.Perm p1 p2 := by
  induction h1 generalizing p2 with
  | nil =>
    cases h2
    exact List.Forall₂.nil
  | cons hp _ ih =>
    cases h2 with
    | cons hq hrest => exact List.Forall₂.cons (hp.trans hq.symm) (ih _ hrest)

theorem eq_of_perm_of_length_le_one {α : Type} (l1 l2 : List α) (h : l1.Perm l2)
    (hlen : l1.length ≤ 1) : l1 = l2 := by
  cases l1 with
  | nil => exact (List.Perm.eq_nil h.symm).symm
  | cons a t =>
    cases t with
    | nil => exact (List.perm_singleton.1 h.symm).symm
    | cons b u => simp at hlen

theorem valueViolations_eq (cs : List Nat) (val : Value) (sf : StructField) (opts : Options) :
    valueViolations cs val sf opts
      = (validateIn {} val sf opts).Errors
        ++ ((rangeOrder cs opts.Numeric).filter (breached (getNumericValue val))).map
            (numericViolation sf (getNumericValue val)) := by
  unfold valueViolations validateValue
  rw [validateNumeric_Errors, validateIn_frame { Errors := [], sched := [cs] }]
  simp

theorem Validate_struct_eq (sched : List (List Nat)) (fields : List (StructField × Value)) :
    Validate sched (some (.struct fields))
      = some (if (recordViolations sched fields).flatten = [] then .nil
          else .errs (recordViolations sched fields).flatten) := by
  simp only [Validate, Value.Kind, Value.fields, ne_eq, not_true_eq_false, if_false,
    foldl_ValidateField, List.nil_append, List.length_eq_zero]
  by_cases h : (recordViolations sched fields).flatten = [] <;> simp [h]

theorem valueViolations_eq_of_le_one (cs1 cs2 : List Nat) (val : Value) (sf : StructField)
    (opts : Options) (hle : opts.Numeric.countP (breached (getNumericValue val)) ≤ 1) :
    valueViolations cs1 val sf opts = valueViolations cs2 val sf opts := by
  rw [valueViolations_eq, valueViolations_eq]
  congr 2
  apply eq_of_perm_of_length_le_one
  · exact List.Perm.filter _ ((rangeOrder_perm cs1 _).trans (rangeOrder_perm cs2 _).symm)
  · rw [← List.countP_eq_length_filter, (rangeOrder_perm cs1 opts.Numeric).countP_eq]
    exact hle

theorem elementViolations_eq_of_le_one (sf : StructField) (opts : Options)
    (vals : List Value)
    (h : ∀ val ∈ vals, opts.Numeric.countP (breached (getNumericValue val)) ≤ 1)
    (ta tb : List (List Nat)) :
    elementViolations sf opts ta vals = elementViolations sf opts tb vals := by
  induction vals generalizing ta tb with
  | nil => rfl
  | cons e es ih =>
    simp only [elementViolations]
    rw [valueViolations_eq_of_le_one (ta.headD []) (tb.headD []) e sf opts (h e (by simp)),
      ih (fun val hv => h val (by simp [hv])) ta.tail tb.tail]

theorem fieldViolations_eq (sc : List (List Nat)) (sf : StructField) (val : Value)
    (htag : sf.Tag ≠ "") (hexp : sf.IsExported = true) :
    fieldViolations sc (sf, val)
      = fieldOptionsErrors sf
        ++ (elementViolations sf (fieldOptions sf) sc (validatedValues sf val)).flatten := by
  unfold fieldViolations fieldOptionsErrors fieldOptions
  rw [ValidateField_eq_foldl _ sf val htag hexp,
    getFieldOptions_frame { Errors := [], sched := sc }]
  simp only [foldl_validateValue, List.nil_append]

theorem fieldViolations_eq_of_at_most_one (f : StructField × Value) (h : AtMostOneFires f)
    (ta tb : List (List Nat)) : fieldViolations ta f = fieldViolations tb f := by
  obtain ⟨sf, val⟩ := f
  by_cases htag : sf.Tag = ""
  · simp [fieldViolations, ValidateField, htag]
  · by_cases hexp : sf.IsExported = true
    · rw [fieldViolations_eq ta sf val htag hexp, fieldViolations_eq tb sf val htag hexp]
      congr 2
      apply elementViolations_eq_of_le_one
      intro v hv
      apply h v
      simp only [checkedValues, htag, hexp, false_or, if_false]
      simpa using hv
    · simp [fieldViolations, ValidateField, htag, hexp]

theorem recordViolations_eq_of_at_most_one (fields : List (StructField × Value))
    (h : ∀ f ∈ fields, AtMostOneFires f) (ta tb : List (List Nat)) :
    recordViolations ta fields = recordViolations tb fields := by
  induction fields generalizing ta tb with
  | nil => rfl
  | cons f fs ih =>
    simp only [recordViolations]
    rw [fieldViolations_eq_of_at_most_one f (h f (by simp)) ta tb,
      ih (fun g hg => h g (by simp [hg])) _
        (ValidateField { Errors := [], sched := tb } f.1 f.2).sched]

/-- C18 (amended): two runs of `Validate` on the same record, whatever the orders in
which they visit the maps, return the same violations field by field in
declaration order and, in a slice field, element by element; for one value the
membership violation comes first and the numeric violations follow, the same ones
in both runs.  When at most one numeric constraint fires on each validated value
of the record, the two runs return the same result, with the same ordered sequence
of violations; the relative order of several numeric violations of one value is
not fixed. -/
theorem violations_fixed_up_to_numeric_order (fields : List (StructField × Value))
    (sc1 sc2 : List (List Nat)) :
    Validate sc1 (some (.struct fields))
        = some (if (recordViolations sc1 fields).flatten = [] then .nil
            else .errs (recordViolations sc1 fields).flatten)
      ∧ Validate sc2 (some (.struct fields))
          = some (if (recordViolations sc2 fields).flatten = [] then .nil
              else .errs (recordViolations sc2 fields).flatten)
      ∧ List.Forall₂ List.Perm (recordViolations sc1 fields) (recordViolations sc2 fields)
      ∧ (recordViolations sc1 fields).flatten.Perm (recordViolations sc2 fields).flatten
      ∧ (∀ (ta tb : List (List Nat)) (sf : StructField) (val : Value),
          sf.Tag ≠ "" → sf.IsExported = true →
          fieldViolations ta (sf, val)
              = fieldOptionsErrors sf
                ++ (elementViolations sf (fieldOptions sf) ta (validatedValues sf val)).flatten
            ∧ List.Forall₂ List.Perm
                (elementViolations sf (fieldOptions sf) ta (validatedValues sf val))
                (elementViolations sf (fieldOptions sf) tb (validatedValues sf val)))
      ∧ (∀ (cs : List Nat) (val : Value) (sf : StructField) (opts : Options),
          valueViolations cs val sf opts
            = (validateIn {} val sf opts).Errors
              ++ ((rangeOrder cs opts.Numeric).filter (breached (getNumericValue val))).map
                  (numericViolation sf (getNumericValue val)))
      ∧ (∀ (cs1 cs2 : List Nat) (val : Value) (sf : StructField) (opts : Options),
          opts.Numeric.countP (breached (getNumericValue val)) ≤ 1 →
          valueViolations cs1 val sf opts = valueViolations cs2 val sf opts)
      ∧ ((∀ f ∈ fields, AtMostOneFires f) →
          recordViolations sc1 fields = recordViolations sc2 fields
            ∧ Validate sc1 (some (.struct fields)) = Validate sc2 (some (.struct fields))) := by
  have h1 := recordViolations_perm fields sc1
  have h2 := recordViolations_perm fields sc2
  refine ⟨Validate_struct_eq sc1 fields, Validate_struct_eq sc2 fields,
    forall₂_perm_of_common _ _ _ _ h1 h2,
    (flatten_perm_of_forall₂ _ _ _ h1).1.trans (flatten_perm_of_forall₂ _ _ _ h2).1.symm,
    fun ta tb sf val htag hexp => ⟨fieldViolations_eq ta sf val htag hexp,
      forall₂_perm_of_common _ _ _ _ (elementViolations_perm sf _ _ ta)
        (elementViolations_perm sf _ _ tb)⟩,
    valueViolations_eq, valueViolations_eq_of_le_one, fun hall => ?_⟩
  have hr := recordViolations_eq_of_at_most_one fields hall sc1 sc2
  exact ⟨hr, by rw [Validate_struct_eq, Validate_struct_eq, hr]⟩

/-- C18, witness: the field `MinMax []int` tagged `min:3; max:5` with the elements 2,
on which only `min` fires, and 7, on which only `max` fires: two runs that visit
the map in different orders return the same result. -/
theorem violations_fixed_up_to_numeric_order_witness :
    Validate [] (some (.struct
        [(⟨"MinMax", "", .sliceOf (.prim .Int), "min:3; max:5"⟩, .slice [.int 2, .int 7])]))
      = Validate [[1], [1]] (some (.struct
        [(⟨"MinMax", "", .sliceOf (.prim .Int), "min:3; max:5"⟩, .slice [.int 2, .int 7])])) :=
  ((violations_fixed_up_to_numeric_order
    [(⟨"MinMax", "", .sliceOf (.prim .Int), "min:3; max:5"⟩, .slice [.int 2, .int 7])]
    [] [[1], [1]]).2.2.2.2.2.2.2 (by
      intro f hf
      simp only [List.mem_singleton] at hf
      subst hf
      intro val hval
      have hv : val = .int 2 ∨ val = .int 7 := by
        simpa [checkedValues, validatedValues, Typ.Kind, Value.elems,
          StructField.IsExported] using hval
      rcases hv with rfl | rfl <;> decide)).2

theorem isInteger_iff (s : String) : isInteger s = true ↔ IsIntText s := by
  unfold isInteger IsIntText
  rw [Option.isSome_iff_exists]
  exact exists_congr (fun n => Atoi_eq_some_iff s n)

theorem rejected_iff (kind : Kind) (o w : String) :
    rejected kind o w = true
      ↔ (w = ""
          ∨ ((o = "min" ∨ o = "max" ∨ o = "len") ∧ ¬ IsIntText w)
          ∨ (o = "in" ∧ kind = .Int ∧ ∃ item ∈ Split w ',', ¬ IsIntText item)) := by
  have hany : (Split w ',').any (fun item => !isInteger item) = true
      ↔ ∃ item ∈ Split w ',', ¬ IsIntText item := by
    rw [List.any_eq_true]
    constructor
    · rintro ⟨item, hm, hi⟩
      exact ⟨item, hm, fun h => by rw [(isInteger_iff item).2 h] at hi; simp at hi⟩
    · rintro ⟨item, hm, hi⟩
      refine ⟨item, hm, ?_⟩
      have : isInteger item ≠ true := fun h => hi ((isInteger_iff item).1 h)
      simpa using this
  have hint : (!isInteger w) = true ↔ ¬ IsIntText w := by
    rw [← isInteger_iff]
    simp
  unfold rejected
  simp only [Bool.or_eq_true, Bool.and_eq_true, decide_eq_true_eq, hany, hint]
  tauto

theorem clauseMalformed_iff (kind : Kind) (s : String) :
    clauseMalformed kind s = true ↔ ClauseIllFormed kind s := by
  unfold clauseMalformed ClauseIllFormed
  split
  · rename_i o w hs
    rw [rejected_iff]
    constructor
    · intro h
      exact Or.inr ⟨o, w, hs, h⟩
    · rintro (h | ⟨o2, w2, hs2, h⟩)
      · exact absurd hs (h o w)
      · rw [hs] at hs2
        simp only [List.cons.injEq, and_true] at hs2
        obtain ⟨rfl, rfl⟩ := hs2
        exact h
  · rename_i hs
    constructor
    · intro _
      exact Or.inl (fun o w h => hs o w h)
    · intro _
      rfl

/-- C12 as stated fails: the tag `len:99999999999999999999` has one clause, which
splits on `:` into two pieces, has a non-empty trimmed value and is named `len`
with a value that is an integer, written with digits only; yet `parseOptions`
returns `ErrInvalidValidatorSyntax`, the integer being outside the range of `int`. -/
theorem integer_above_int_range_rejected :
    parseOptions .Int "len:99999999999999999999" = ({}, some .ErrInvalidValidatorSyntax)
      ∧ Split "len:99999999999999999999" ';' = ["len:99999999999999999999"]
      ∧ Split "len:99999999999999999999" ':' = ["len", "99999999999999999999"]
      ∧ Trim "len" = "len"
      ∧ Trim "99999999999999999999" = "99999999999999999999"
      ∧ IsDigits "99999999999999999999".data
      ∧ decimalValue false "99999999999999999999".data = 99999999999999999999 := by
  refine ⟨by decide, by decide, by decide, by decide, by decide, ⟨by decide, by decide⟩, ?_⟩
  simp [decimalValue, digitsValue, Nat.ofDigits]

/-- C12 (amended): `parseOptions` returns `ErrInvalidValidatorSyntax` iff some clause
of the tag, the clauses being separated by `;`, does not split on `:` into exactly
two pieces, or has an empty trimmed value, or is named `min`, `max` or `len` with
a value that is not an integer of the range of `int` written in base 10 (an
optional sign `+` or `-`, then digits), or is named `in`, the kind being `int`,
with some item separated by `,` that is not such an integer; otherwise it returns
no error.  The empty tag and every tag that ends with `;`, such as `min:5;`, are
rejected. -/
theorem parseOptions_fails_iff_clause_ill_formed :
    (∀ (kind : Kind) (tag : String),
      ((parseOptions kind tag).2 = some .ErrInvalidValidatorSyntax
          ↔ ∃ s ∈ Split tag ';', ClauseIllFormed kind s)
        ∧ ((parseOptions kind tag).2 = none
          ↔ ¬ ∃ s ∈ Split tag ';', ClauseIllFormed kind s))
      ∧ (∀ kind : Kind, (parseOptions kind "").2 = some .ErrInvalidValidatorSyntax)
      ∧ (∀ (kind : Kind) (tag : String),
          (parseOptions kind (tag ++ ";")).2 = some .ErrInvalidValidatorSyntax)
      ∧ (parseOptions .Int "min:5;").2 = some .ErrInvalidValidatorSyntax := by
  have hex : ∀ (kind : Kind) (tag : String),
      (∃ s ∈ Split tag ';', clauseMalformed kind s = true)
        ↔ ∃ s ∈ Split tag ';', ClauseIllFormed kind s := by
    intro kind tag
    constructor
    · rintro ⟨s, hs, h⟩
      exact ⟨s, hs, (clauseMalformed_iff kind s).1 h⟩
    · rintro ⟨s, hs, h⟩
      exact ⟨s, hs, (clauseMalformed_iff kind s).2 h⟩
  have hmain : ∀ (kind : Kind) (tag : String),
      ((parseOptions kind tag).2 = some .ErrInvalidValidatorSyntax
          ↔ ∃ s ∈ Split tag ';', ClauseIllFormed kind s)
        ∧ ((parseOptions kind tag).2 = none
          ↔ ¬ ∃ s ∈ Split tag ';', ClauseIllFormed kind s) := by
    intro kind tag
    rw [← hex]
    exact parseOptions_snd_iff kind tag
  have hempty : ∀ kind : Kind, clauseMalformed kind "" = true := fun _ => rfl
  refine ⟨hmain, fun kind => ?_, fun kind tag => ?_, by decide⟩
  · exact (parseOptions_snd_iff kind "").1.2 ⟨"", by decide, hempty kind⟩
  · exact (parseOptions_snd_iff kind (tag ++ ";")).1.2
      ⟨"", empty_mem_Split_trailing tag, hempty kind⟩

end validator
